import Mathlib

/-!
Verification of the catberry-locator service locator
(`lib/ServiceLocator.js`, the variant with constructor-parameter injection,
and `lib/ConstructorTokenizer.js`) against its natural-language specification.

The JavaScript source is shallowly embedded: the tokenizer becomes a pure
state-passing function on an explicit `Tokenizer` record, the locator becomes
explicit state passing on `LocState`, recursion through `resolve` is bounded
by an explicit fuel that models the host call stack (fuel exhaustion models
stack overflow on cyclic dependency graphs), and thrown errors become
`Except Err` results paired with the (possibly mutated) state, since a
JavaScript exception does not roll back mutations.
-/

namespace CatberryLocator

/-! ## Character classes

`DEPENDENCY_REGEXP = /^\$\w+/`, `WHITESPACE_TEST = /^\s$/`,
`IDENTIFIER_TEST = /^[\$\w]$/` from the source.  JavaScript `\w` is
`[A-Za-z0-9_]`.  For `\s` we model the ASCII whitespace characters; the
remaining Unicode space characters never occur in the claims and do not
affect any statement proved here. -/

/-- JavaScript `\w`: ASCII letters, digits and underscore. -/
def isWordChar (c : Char) : Bool :=
  c.isAlphanum || c = '_'

/-- The tokenizer's `IDENTIFIER_TEST /^[\$\w]$/`: word characters plus the
dependency sigil. -/
def isIdentChar (c : Char) : Bool :=
  isWordChar c || c = '$'

/-- `WHITESPACE_TEST /^\s$/` restricted to ASCII whitespace. -/
def isJsWhitespace (c : Char) : Bool :=
  c = ' ' || c = '\t' || c = '\n' || c = '\r' ||
  c = (Char.ofNat 11) || c = (Char.ofNat 12)

/-! ## Tokenizer (`lib/ConstructorTokenizer.js`) -/

/-- `ConstructorTokenizer.STATES`. -/
inductive TState where
  | ILLEGAL
  | NO
  | IDENTIFIER
  | FUNCTION
  | PARENTHESES_OPEN
  | PARENTHESES_CLOSE
  | COMMA
  | END
deriving DecidableEq

/-- The tokenizer's mutable fields: `_source`, `_currentIndex`,
`_currentEnd`, `_currentState`.  Source text is a list of characters;
JavaScript string indexing out of bounds yields `undefined`, modelled by
`charAt` returning `none`. -/
structure Tokenizer where
  source : List Char
  currentIndex : Nat
  currentEnd : Nat
  currentState : TState
deriving DecidableEq

/-- A token `{state, start, end}` as returned by `next()`. -/
structure Token where
  state : TState
  start : Nat
  tokEnd : Nat
deriving DecidableEq

/-- JavaScript `source[i]`: `some` character or `none` past the end. -/
def charAt (src : List Char) (i : Nat) : Option Char :=
  (src.drop i).head?

theorem charAt_lt_length {src : List Char} {i : Nat} {c : Char}
    (h : charAt src i = some c) : i < src.length := by
  by_contra hge
  have hnil : src.drop i = [] := List.drop_eq_nil_of_le (by omega)
  simp [charAt, hnil] at h

/-- Length of the maximal whitespace prefix of a character list. -/
def wsRunLen : List Char → Nat
  | [] => 0
  | c :: l => if isJsWhitespace c then wsRunLen l + 1 else 0

/-- `skipWhitespace`: the while-loop advances `_currentIndex` over the run
of whitespace characters starting at `i` (and stops at the end of the
source or at the first non-whitespace character). -/
def skipWhitespace (src : List Char) (i : Nat) : Nat :=
  i + wsRunLen (src.drop i)

/-- Length of the maximal identifier-character prefix of a character list. -/
def identRunLen : List Char → Nat
  | [] => 0
  | c :: l => if isIdentChar c then identRunLen l + 1 else 0

/-- The while-loop inside `identifierState`: advance the index over the
maximal run of identifier characters starting at `i`. -/
def identifierRun (src : List Char) (i : Nat) : Nat :=
  i + identRunLen (src.drop i)

/-- The state picked at the end of `parenthesesOpenState`: an identifier
character starts an identifier, `)` closes the list, anything else
(including the end of the source, where indexing yields `undefined` and
every test fails) is illegal. -/
def parenthesesOpenClassify : Option Char → TState
  | some c =>
    if isIdentChar c then TState.IDENTIFIER
    else if c = ')' then TState.PARENTHESES_CLOSE
    else TState.ILLEGAL
  | none => TState.ILLEGAL

/-- `parenthesesOpenState`: consume `(`, skip whitespace, pick the next
state from the next character. -/
def parenthesesOpenState (tk : Tokenizer) : Tokenizer :=
  let i := tk.currentIndex + 1
  let j := skipWhitespace tk.source i
  { tk with
    currentIndex := j
    currentEnd := i
    currentState := parenthesesOpenClassify (charAt tk.source j) }

/-- `parenthesesCloseState`: consume `)` and finish. -/
def parenthesesCloseState (tk : Tokenizer) : Tokenizer :=
  { tk with
    currentIndex := tk.currentIndex + 1
    currentEnd := tk.currentIndex + 1
    currentState := TState.END }

/-- The state picked at the end of `functionState`. -/
def functionClassify : Option Char → TState
  | some c =>
    if c = '(' then TState.PARENTHESES_OPEN
    else if isIdentChar c then TState.IDENTIFIER
    else TState.ILLEGAL
  | none => TState.ILLEGAL

/-- `functionState`: consume the 8-character keyword, skip whitespace, pick
the next state. -/
def functionState (tk : Tokenizer) : Tokenizer :=
  let i := tk.currentIndex + 8
  let j := skipWhitespace tk.source i
  { tk with
    currentIndex := j
    currentEnd := i
    currentState := functionClassify (charAt tk.source j) }

/-- The state picked at the end of `identifierState`. -/
def identifierClassify : Option Char → TState
  | some c =>
    if c = '(' then TState.PARENTHESES_OPEN
    else if c = ')' then TState.PARENTHESES_CLOSE
    else if c = ',' then TState.COMMA
    else TState.ILLEGAL
  | none => TState.ILLEGAL

/-- `identifierState`: consume the maximal identifier run, skip whitespace,
pick the next state. -/
def identifierState (tk : Tokenizer) : Tokenizer :=
  let j := identifierRun tk.source tk.currentIndex
  let k := skipWhitespace tk.source j
  { tk with
    currentIndex := k
    currentEnd := j
    currentState := identifierClassify (charAt tk.source k) }

/-- The state picked at the end of `commaState`. -/
def commaClassify : Option Char → TState
  | some c => if isIdentChar c then TState.IDENTIFIER else TState.ILLEGAL
  | none => TState.ILLEGAL

/-- `commaState`: consume `,`, skip whitespace, pick the next state. -/
def commaState (tk : Tokenizer) : Tokenizer :=
  let i := tk.currentIndex + 1
  let j := skipWhitespace tk.source i
  { tk with
    currentIndex := j
    currentEnd := i
    currentState := commaClassify (charAt tk.source j) }

/-- `this._source.substr(i, 8) === KEYWORDS.FUNCTION`. -/
def matchesKeyword (src : List Char) (i : Nat) : Bool :=
  (src.drop i).take 8 = "function".data

/-- `ConstructorTokenizer.prototype.next`.  In the `NO` state with the
keyword present, the source sets the state to `FUNCTION` and immediately
recurses into `next()`; that single-level recursion is inlined here.  In the
`NO` state without the keyword only the local `state` variable becomes
`ILLEGAL`: the returned token is `ILLEGAL` (with the stale `_currentEnd`)
while the machine state stays `NO`. -/
def next (tk : Tokenizer) : Token × Tokenizer :=
  match tk.currentState with
  | TState.ILLEGAL => (⟨tk.currentState, tk.currentIndex, tk.currentIndex + 1⟩, tk)
  | TState.END => (⟨tk.currentState, tk.currentIndex, tk.currentIndex + 1⟩, tk)
  | TState.PARENTHESES_OPEN =>
    let tk' := parenthesesOpenState tk
    (⟨TState.PARENTHESES_OPEN, tk.currentIndex, tk'.currentEnd⟩, tk')
  | TState.PARENTHESES_CLOSE =>
    let tk' := parenthesesCloseState tk
    (⟨TState.PARENTHESES_CLOSE, tk.currentIndex, tk'.currentEnd⟩, tk')
  | TState.IDENTIFIER =>
    let tk' := identifierState tk
    (⟨TState.IDENTIFIER, tk.currentIndex, tk'.currentEnd⟩, tk')
  | TState.COMMA =>
    let tk' := commaState tk
    (⟨TState.COMMA, tk.currentIndex, tk'.currentEnd⟩, tk')
  | TState.FUNCTION =>
    let tk' := functionState tk
    (⟨TState.FUNCTION, tk.currentIndex, tk'.currentEnd⟩, tk')
  | TState.NO =>
    let j := skipWhitespace tk.source tk.currentIndex
    if matchesKeyword tk.source j then
      let tk' := functionState { tk with currentIndex := j, currentState := TState.FUNCTION }
      (⟨TState.FUNCTION, j, tk'.currentEnd⟩, tk')
    else
      (⟨TState.ILLEGAL, tk.currentIndex, tk.currentEnd⟩, { tk with currentIndex := j })

/-- `source.substring(a, b)` for the token ranges produced here
(always `a ≤ b`). -/
def substringOf (src : List Char) (a b : Nat) : String :=
  String.mk ((src.drop a).take (b - a))

/-- The extractor loop of `_getParameterNames`: repeatedly call `next`,
record identifiers seen after the parameter list opened, stop at an `END` or
`ILLEGAL` token.  The `Bool` result records whether a terminal token was
actually reached (`false` only if the fuel ran out, which `claim_C6_scan`
proves never happens at the fuel used by `getParameterNames`). -/
def scanLoop : Nat → Tokenizer → Bool → List String → List String × Bool
  | 0, _, _, acc => (acc.reverse, false)
  | fuel + 1, tk, started, acc =>
    let p := next tk
    let started' := if p.1.state = TState.PARENTHESES_OPEN then true else started
    let acc' :=
      if started' then
        if p.1.state = TState.IDENTIFIER then
          substringOf tk.source p.1.start p.1.tokEnd :: acc
        else acc
      else acc
    if p.1.state = TState.END ∨ p.1.state = TState.ILLEGAL then (acc'.reverse, true)
    else scanLoop fuel p.2 started' acc'

/-- Fresh tokenizer: `new ConstructorTokenizer(source)`. -/
def initTokenizer (src : List Char) : Tokenizer :=
  ⟨src, 0, 0, TState.NO⟩

/-- `_getParameterNames`, also returning the termination flag of the scan. -/
def getParameterNamesScan (src : List Char) : List String × Bool :=
  scanLoop (src.length + 2) (initTokenizer src) false []

/-- `ServiceLocator.prototype._getParameterNames`. -/
def getParameterNames (src : List Char) : List String :=
  (getParameterNamesScan src).1

/-! ## Service locator data model (`lib/ServiceLocator.js`) -/

/-- Errors thrown by the locator.  `stackExhausted` models the host
call-stack overflow on an unbounded recursive resolution (the fuel running
out); the source has no corresponding `throw` statement. -/
inductive Err where
  | invalidTypeName
  | invalidImplementation
  | notRegistered (type : String)
  | stackExhausted
deriving DecidableEq

/-- Runtime values: the explicit `undefined` marker (an absent key in a
parameter bag), opaque literal configuration values, and constructed
instances.  An instance records the allocation counter (`instId`, giving
object identity), the implementation that built it and the argument list it
was constructed with. -/
inductive Value where
  | undef
  | lit (n : Nat)
  | obj (instId : Nat) (implId : Nat) (args : List Value)

mutual

/-- Decidable equality for `Value` (the nested `List Value` blocks the
automatic derivation). -/
def Value.deq : (v w : Value) → Decidable (v = w)
  | Value.undef, Value.undef => isTrue rfl
  | Value.undef, Value.lit _ => isFalse (fun h => Value.noConfusion h)
  | Value.undef, Value.obj _ _ _ => isFalse (fun h => Value.noConfusion h)
  | Value.lit _, Value.undef => isFalse (fun h => Value.noConfusion h)
  | Value.lit n, Value.lit m =>
    match Nat.decEq n m with
    | isTrue h => isTrue (by rw [h])
    | isFalse h => isFalse (fun he => by cases he; exact h rfl)
  | Value.lit _, Value.obj _ _ _ => isFalse (fun h => Value.noConfusion h)
  | Value.obj _ _ _, Value.undef => isFalse (fun h => Value.noConfusion h)
  | Value.obj _ _ _, Value.lit _ => isFalse (fun h => Value.noConfusion h)
  | Value.obj a b l, Value.obj c d m =>
    match Nat.decEq a c with
    | isFalse h => isFalse (fun he => by cases he; exact h rfl)
    | isTrue h1 =>
      match Nat.decEq b d with
      | isFalse h => isFalse (fun he => by cases he; exact h rfl)
      | isTrue h2 =>
        match Value.deqList l m with
        | isTrue h3 => isTrue (by rw [h1, h2, h3])
        | isFalse h => isFalse (fun he => by cases he; exact h rfl)

/-- Decidable equality for lists of `Value`. -/
def Value.deqList : (l m : List Value) → Decidable (l = m)
  | [], [] => isTrue rfl
  | [], _ :: _ => isFalse (fun h => List.noConfusion h)
  | _ :: _, [] => isFalse (fun h => List.noConfusion h)
  | a :: l, b :: m =>
    match Value.deq a b with
    | isFalse h => isFalse (fun he => by cases he; exact h rfl)
    | isTrue h1 =>
      match Value.deqList l m with
      | isTrue h2 => isTrue (by rw [h1, h2])
      | isFalse h => isFalse (fun he => by cases he; exact h rfl)

end

instance : DecidableEq Value := Value.deq

/-- Decidable equality for `Except` results, so that concrete runs can be
checked by `decide`. -/
instance {ε α : Type} [DecidableEq ε] [DecidableEq α] : DecidableEq (Except ε α) :=
  fun a b =>
    match a, b with
    | Except.error e, Except.error e' =>
      match decEq e e' with
      | isTrue h => isTrue (by rw [h])
      | isFalse h => isFalse (fun he => by cases he; exact h rfl)
    | Except.error _, Except.ok _ => isFalse (fun h => Except.noConfusion h)
    | Except.ok _, Except.error _ => isFalse (fun h => Except.noConfusion h)
    | Except.ok v, Except.ok w =>
      match decEq v w with
      | isTrue h => isTrue (by rw [h])
      | isFalse h => isFalse (fun he => by cases he; exact h rfl)

/-- An implementation (constructor function): its identity and its textual
source form (`constructor.toString()`), which the extractor scans. -/
structure Impl where
  implId : Nat
  source : List Char
deriving DecidableEq

/-- A registration descriptor as built by `register`/`registerInstance`:
`{constructor, parameterNames, parameters, isSingleton, singleInstance}`.
Only the identity of the constructor is ever used (`new registration.constructor`),
so `ctorId` stores the implementation id. -/
structure Reg where
  ctorId : Nat
  parameterNames : List String
  parameters : List (String × Value)
  isSingleton : Bool
  singleInstance : Option Value
deriving DecidableEq

/-- The locator's state: `this._registrations` (an association list from
type name to the descriptor sequence, most recent first) plus the allocation
counter for fresh instance identities. -/
structure LocState where
  registrations : List (String × List Reg)
  nextId : Nat
deriving DecidableEq

/-- Public-interface argument values, for the dynamic `typeof`/`instanceof`
checks: strings, functions and some non-string, non-function values. -/
inductive JSVal where
  | str (s : String)
  | fn (f : Impl)
  | num (n : Int)
  | undef
  | nil
deriving DecidableEq

/-! ### Registry store helpers -/

/-- Key lookup in `this._registrations`. -/
def lookupList : List (String × List Reg) → String → Option (List Reg)
  | [], _ => none
  | (k, l) :: rest, t => if k = t then some l else lookupList rest t

/-- `this._registrations[type]`. -/
def lookupRegs (S : LocState) (t : String) : Option (List Reg) :=
  lookupList S.registrations t

/-- `_throwIfNoType`'s test: the key is absent or its sequence is empty. -/
def noType (S : LocState) (t : String) : Prop :=
  lookupRegs S t = none ∨ lookupRegs S t = some []

instance (S : LocState) (t : String) : Decidable (noType S t) := by
  unfold noType; infer_instance

/-- The descriptor at position `i` of type `t`'s sequence. -/
def getRegAt (S : LocState) (t : String) (i : Nat) : Option Reg :=
  match lookupRegs S t with
  | some l => l[i]?
  | none => none

/-- The `singleInstance` field of the descriptor at `(t, i)`. -/
def getSingle (S : LocState) (t : String) (i : Nat) : Option Value :=
  match getRegAt S t i with
  | some r => r.singleInstance
  | none => none

/-- Overwrite `singleInstance` of the descriptor at index `i`. -/
def cacheAt : List Reg → Nat → Value → List Reg
  | [], _, _ => []
  | r :: rs, 0, v => { r with singleInstance := some v } :: rs
  | r :: rs, n + 1, v => r :: cacheAt rs n v

/-- Apply `cacheAt` under the key `t`. -/
def cacheFirst : List (String × List Reg) → String → Nat → Value → List (String × List Reg)
  | [], _, _, _ => []
  | (k, l) :: rest, t, i, v =>
    if k = t then (k, cacheAt l i v) :: rest else (k, l) :: cacheFirst rest t i v

/-- `registration.singleInstance = instance` for the descriptor at `(t, i)`. -/
def setSingleAt (S : LocState) (t : String) (i : Nat) (v : Value) : LocState :=
  { S with registrations := cacheFirst S.registrations t i v }

/-- Prepend a descriptor to the sequence of key `t` (`unshift`). -/
def unshiftFirst : List (String × List Reg) → String → Reg → List (String × List Reg)
  | [], _, _ => []
  | (k, l) :: rest, t, r =>
    if k = t then (k, r :: l) :: rest else (k, l) :: unshiftFirst rest t r

/-- `this._registrations[type].unshift(descriptor)`. -/
def unshiftReg (S : LocState) (t : String) (r : Reg) : LocState :=
  { S with registrations := unshiftFirst S.registrations t r }

/-- `delete this._registrations[type]`.  A JavaScript object holds each key
at most once, so removing every matching entry of the association list is
the faithful rendering. -/
def deleteKey : List (String × List Reg) → String → List (String × List Reg)
  | [], _ => []
  | (k, l) :: rest, t =>
    if k = t then deleteKey rest t else (k, l) :: deleteKey rest t

/-- `_initializeRegistration`: create an empty sequence when the key is
absent. -/
def initializeRegistration (S : LocState) (t : String) : LocState :=
  match lookupRegs S t with
  | some _ => S
  | none => { S with registrations := S.registrations ++ [(t, [])] }

/-! ### Dependency names and parameter bags -/

/-- `_getDependencyName`: `DEPENDENCY_REGEXP.test` (`/^\$\w+/`, a prefix
match: the sigil followed by at least one word character) and
`parameterName.substring(1)`. -/
def getDependencyName (p : String) : Option String :=
  match p.data with
  | c :: c2 :: rest =>
    if c = '$' then
      if isWordChar c2 then some (String.mk (c2 :: rest)) else none
    else none
  | _ => none

/-- `registration.parameters[parameterName]`: an absent key yields the
explicit `undefined` marker, not an error. -/
def lookupParam (ps : List (String × Value)) (n : String) : Value :=
  match ps.find? (fun p => p.1 = n) with
  | some p => p.2
  | none => Value.undef

/-! ### The resolution engine

`resolve` recurses through `_createInstance` and `_getParameters`; the
helpers are parameterized by the recursive resolver so that the whole nest
is structural in the fuel. -/

/-- The type of a resolver handed to the helpers. -/
abbrev ResFn := LocState → String → Except Err Value × LocState

/-- `_getParameters`: resolve each parameter name in declared order — a
dependency-sigil name by recursive `resolve` on the stripped name, any other
name by lookup in the literal bag.  Errors of the recursive resolve
propagate unchanged, along with the state mutated so far. -/
def getParametersWith (res : ResFn) :
    LocState → List String → List (String × Value) → Except Err (List Value) × LocState
  | S, [], _ => (Except.ok [], S)
  | S, n :: ns, ps =>
    let step := match getDependencyName n with
      | some d => res S d
      | none => (Except.ok (lookupParam ps n), S)
    match step with
    | (Except.error e, S') => (Except.error e, S')
    | (Except.ok v, S') =>
      match getParametersWith res S' ns ps with
      | (Except.error e, S'') => (Except.error e, S'')
      | (Except.ok vs, S'') => (Except.ok (v :: vs), S'')

/-- The construction half of `_createInstance`: resolve the parameters and
build the instance with a fresh identity (`new registration.constructor(...instanceParameters)`). -/
def constructNew (res : ResFn) (S : LocState) (r : Reg) : Except Err Value × LocState :=
  match getParametersWith res S r.parameterNames r.parameters with
  | (Except.error e, S') => (Except.error e, S')
  | (Except.ok args, S') =>
    (Except.ok (Value.obj S'.nextId r.ctorId args), { S' with nextId := S'.nextId + 1 })

/-- `_createInstance` on the descriptor `r`.  `addr = some (t, i)` is the
registry position holding `r` (the object reference through which
`singleInstance` is written back); `resolveInstance` passes `none` for its
unregistered descriptor.  The source tests
`isSingleton && singleInstance !== null` and returns the cache, then
constructs, then commits the cache `if (isSingleton)`; the three resulting
paths (cache hit, singleton construction + commit, plain construction) are
the three branches here. -/
def createInstanceWith (res : ResFn) (S : LocState) (r : Reg)
    (addr : Option (String × Nat)) : Except Err Value × LocState :=
  match r.isSingleton, r.singleInstance with
  | true, some v => (Except.ok v, S)
  | true, none =>
    match constructNew res S r with
    | (Except.error e, S') => (Except.error e, S')
    | (Except.ok inst, S') =>
      (Except.ok inst,
        match addr with
        | some (t, i) => setSingleAt S' t i inst
        | none => S')
  | false, _ => constructNew res S r

/-- `resolve` on a (string) type name, with fuel bounding the recursion
depth.  Fuel `0` models host stack exhaustion. -/
def resolveFuel : Nat → LocState → String → Except Err Value × LocState
  | 0, S, _ => (Except.error Err.stackExhausted, S)
  | fuel + 1, S, t =>
    match lookupRegs S t with
    | some (r :: _) => createInstanceWith (resolveFuel fuel) S r (some (t, 0))
    | _ => (Except.error (Err.notRegistered t), S)

/-- The `map` inside `resolveAll`: construct one instance per descriptor of
`t`, in sequence order, threading the state; the descriptor is re-read at
its turn because the shared array cell may have been mutated meanwhile.
The `none` branch is unreachable for the lengths `resolveAll` passes. -/
def resolveAllLoop (res : ResFn) : LocState → String → Nat → Nat → Except Err (List Value) × LocState
  | S, _, _, 0 => (Except.ok [], S)
  | S, t, i, n + 1 =>
    match getRegAt S t i with
    | none => (Except.ok [], S)
    | some r =>
      match createInstanceWith res S r (some (t, i)) with
      | (Except.error e, S') => (Except.error e, S')
      | (Except.ok v, S') =>
        match resolveAllLoop res S' t (i + 1) n with
        | (Except.error e, S'') => (Except.error e, S'')
        | (Except.ok vs, S'') => (Except.ok (v :: vs), S'')

/-- `resolveAll` (string type name): the `_throwIfNoType` error is caught
and turned into `[]`; errors from the per-descriptor construction
propagate. -/
def resolveAllFuel (fuel : Nat) (S : LocState) (t : String) : Except Err (List Value) × LocState :=
  match fuel with
  | 0 => (Except.error Err.stackExhausted, S)
  | fuel + 1 =>
    match lookupRegs S t with
    | some (r :: rest) =>
      resolveAllLoop (resolveFuel fuel) S t 0 (r :: rest).length
    | _ => (Except.ok [], S)

/-- `resolveInstance` (on an implementation): one-shot construction from a
fresh descriptor that is never stored, with parameter names extracted fresh
from the implementation's source. -/
def resolveInstanceFuel (fuel : Nat) (S : LocState) (impl : Impl)
    (ps : List (String × Value)) : Except Err Value × LocState :=
  match fuel with
  | 0 => (Except.error Err.stackExhausted, S)
  | fuel + 1 =>
    createInstanceWith (resolveFuel fuel) S
      ⟨impl.implId, getParameterNames impl.source, ps, false, none⟩ none

/-! ### Registration (string type names) -/

/-- `register`'s mutation: initialize the sequence, extract the parameter
names from the implementation source, prepend the descriptor. -/
def registerCore (S : LocState) (t : String) (impl : Impl)
    (ps : List (String × Value)) (sing : Bool) : LocState :=
  unshiftReg (initializeRegistration S t) t
    ⟨impl.implId, getParameterNames impl.source, ps, sing, none⟩

/-- `instance.constructor`, as far as the locator uses it (its identity). -/
def constructorIdOf : Value → Nat
  | Value.obj _ implId _ => implId
  | Value.lit _ => 0
  | Value.undef => 0

/-- `registerInstance`'s mutation: prepend a pre-cached singleton descriptor
with no parameters. -/
def registerInstanceCore (S : LocState) (t : String) (inst : Value) : LocState :=
  unshiftReg (initializeRegistration S t) t
    ⟨constructorIdOf inst, [], [], true, some inst⟩

/-! ### Public operations (dynamic argument checks)

`_throwIfNotString` accepts exactly the string values (the empty string
included); `_throwIfNotFunction` accepts exactly the function values.
`register` runs the function check before the string check, as the source
does. -/

/-- `ServiceLocator.prototype.register`. -/
def registerOp (S : LocState) (type impl : JSVal) (ps : List (String × Value))
    (sing : Bool) : Except Err Unit × LocState :=
  match impl with
  | JSVal.fn F =>
    match type with
    | JSVal.str t => (Except.ok (), registerCore S t F ps sing)
    | _ => (Except.error Err.invalidTypeName, S)
  | _ => (Except.error Err.invalidImplementation, S)

/-- `ServiceLocator.prototype.registerInstance`. -/
def registerInstanceOp (S : LocState) (type : JSVal) (inst : Value) :
    Except Err Unit × LocState :=
  match type with
  | JSVal.str t => (Except.ok (), registerInstanceCore S t inst)
  | _ => (Except.error Err.invalidTypeName, S)

/-- `ServiceLocator.prototype.resolve`. -/
def resolveOp (fuel : Nat) (S : LocState) (type : JSVal) : Except Err Value × LocState :=
  match type with
  | JSVal.str t => resolveFuel fuel S t
  | _ => (Except.error Err.invalidTypeName, S)

/-- `ServiceLocator.prototype.resolveAll`. -/
def resolveAllOp (fuel : Nat) (S : LocState) (type : JSVal) :
    Except Err (List Value) × LocState :=
  match type with
  | JSVal.str t => resolveAllFuel fuel S t
  | _ => (Except.error Err.invalidTypeName, S)

/-- `ServiceLocator.prototype.unregister`. -/
def unregisterOp (S : LocState) (type : JSVal) : Except Err Unit × LocState :=
  match type with
  | JSVal.str t => (Except.ok (), { S with registrations := deleteKey S.registrations t })
  | _ => (Except.error Err.invalidTypeName, S)

/-! ## Registry store lemmas -/

/-- A descriptor with its mutable `singleInstance` field erased: what
resolution can never change. -/
def eraseReg (r : Reg) : Reg :=
  { r with singleInstance := none }

/-- The registry with every `singleInstance` erased: the structural part of
the state. -/
def eraseSingles (S : LocState) : List (String × List Reg) :=
  S.registrations.map (fun kv => (kv.1, kv.2.map eraseReg))

theorem lookupList_map_erase (L : List (String × List Reg)) (t : String) :
    lookupList (L.map (fun kv => (kv.1, kv.2.map eraseReg))) t =
      (lookupList L t).map (List.map eraseReg) := by
  induction L with
  | nil => rfl
  | cons kv rest ih =>
    obtain ⟨k, l⟩ := kv
    by_cases h : k = t <;> simp [lookupList, h, ih]

theorem lookupRegs_erase (S : LocState) (t : String) :
    lookupList (eraseSingles S) t = (lookupRegs S t).map (List.map eraseReg) := by
  simpa [eraseSingles] using lookupList_map_erase S.registrations t

theorem lookup_map_of_eraseEq {S S' : LocState}
    (h : eraseSingles S' = eraseSingles S) (t : String) :
    (lookupRegs S' t).map (List.map eraseReg) = (lookupRegs S t).map (List.map eraseReg) := by
  rw [← lookupRegs_erase, ← lookupRegs_erase, h]

theorem noType_of_eraseEq {S S' : LocState}
    (h : eraseSingles S' = eraseSingles S) (t : String) :
    noType S' t ↔ noType S t := by
  have hm := lookup_map_of_eraseEq h t
  unfold noType
  cases h1 : lookupRegs S' t with
  | none =>
    cases h2 : lookupRegs S t with
    | none => simp
    | some l => rw [h1, h2] at hm; simp at hm
  | some l' =>
    cases h2 : lookupRegs S t with
    | none => rw [h1, h2] at hm; simp at hm
    | some l =>
      rw [h1, h2] at hm
      simp only [Option.map_some', Option.some.injEq] at hm
      have hlen : l'.length = l.length := by
        have := congrArg List.length hm
        simpa using this
      constructor
      · rintro (h' | h')
        · exact absurd h' (by simp)
        · simp only [Option.some.injEq] at h'
          right
          simp only [Option.some.injEq]
          have h0 : l'.length = 0 := by rw [h']; rfl
          rw [← List.length_eq_zero]
          omega
      · rintro (h' | h')
        · exact absurd h' (by simp)
        · simp only [Option.some.injEq] at h'
          right
          simp only [Option.some.injEq]
          have h0 : l.length = 0 := by rw [h']; rfl
          rw [← List.length_eq_zero]
          omega

theorem getRegAt_none {S : LocState} {t : String}
    (h : lookupRegs S t = none) (i : Nat) : getRegAt S t i = none := by
  unfold getRegAt
  rw [h]

theorem getRegAt_some {S : LocState} {t : String} {l : List Reg}
    (h : lookupRegs S t = some l) (i : Nat) : getRegAt S t i = l[i]? := by
  unfold getRegAt
  rw [h]

theorem getRegAt_of_eraseEq {S S' : LocState}
    (h : eraseSingles S' = eraseSingles S) {t : String} {i : Nat} {r : Reg}
    (hr : getRegAt S t i = some r) :
    ∃ r', getRegAt S' t i = some r' ∧ eraseReg r' = eraseReg r := by
  have hm := lookup_map_of_eraseEq h t
  cases h2 : lookupRegs S t with
  | none => rw [getRegAt_none h2 i] at hr; exact absurd hr (by simp)
  | some l =>
    rw [getRegAt_some h2 i] at hr
    cases h1 : lookupRegs S' t with
    | none => rw [h1, h2] at hm; simp at hm
    | some l' =>
      rw [h1, h2] at hm
      simp only [Option.map_some', Option.some.injEq] at hm
      have hmap : (l'.map eraseReg)[i]? = (l.map eraseReg)[i]? := by rw [hm]
      rw [List.getElem?_map, List.getElem?_map, hr] at hmap
      simp only [Option.map_some'] at hmap
      cases h3 : l'[i]? with
      | none => rw [h3] at hmap; simp at hmap
      | some r' =>
        rw [h3] at hmap
        simp only [Option.map_some', Option.some.injEq] at hmap
        exact ⟨r', by rw [getRegAt_some h1 i, h3], hmap⟩

theorem eraseReg_fields {r r' : Reg} (h : eraseReg r' = eraseReg r) :
    r'.ctorId = r.ctorId ∧ r'.parameterNames = r.parameterNames ∧
      r'.parameters = r.parameters ∧ r'.isSingleton = r.isSingleton := by
  unfold eraseReg at h
  cases r; cases r'
  simp_all

theorem cacheAt_map_erase (l : List Reg) (i : Nat) (v : Value) :
    (cacheAt l i v).map eraseReg = l.map eraseReg := by
  induction l generalizing i with
  | nil => rfl
  | cons r rs ih =>
    cases i with
    | zero => simp [cacheAt, eraseReg]
    | succ n => simp [cacheAt, ih]

theorem eraseSingles_setSingleAt (S : LocState) (t : String) (i : Nat) (v : Value) :
    eraseSingles (setSingleAt S t i v) = eraseSingles S := by
  unfold eraseSingles setSingleAt
  simp only
  induction S.registrations with
  | nil => rfl
  | cons kv rest ih =>
    obtain ⟨k, l⟩ := kv
    by_cases h : k = t <;> simp [cacheFirst, h, cacheAt_map_erase, ih]

theorem lookupList_cacheFirst (L : List (String × List Reg)) (t : String)
    (i : Nat) (v : Value) (u : String) :
    lookupList (cacheFirst L t i v) u =
      if u = t then (lookupList L u).map (fun l => cacheAt l i v)
      else lookupList L u := by
  induction L with
  | nil => simp [lookupList, cacheFirst]
  | cons kv rest ih =>
    obtain ⟨k, l⟩ := kv
    simp only [cacheFirst]
    by_cases hkt : k = t
    · subst hkt
      rw [if_pos rfl]
      by_cases hku : k = u
      · subst hku
        simp [lookupList]
      · have hut : ¬ u = k := fun hx => hku hx.symm
        simp [lookupList, hku, hut]
    · rw [if_neg hkt]
      by_cases hku : k = u
      · subst hku
        simp [lookupList, hkt]
      · simp [lookupList, hku, ih]


theorem cacheAt_getElem (l : List Reg) (i : Nat) (v : Value) (j : Nat) :
    (cacheAt l i v)[j]? =
      if j = i then (l[i]?).map (fun r => { r with singleInstance := some v })
      else l[j]? := by
  induction l generalizing i j with
  | nil => simp [cacheAt]
  | cons r rs ih =>
    cases i with
    | zero =>
      cases j with
      | zero => simp [cacheAt]
      | succ m => simp [cacheAt]
    | succ n =>
      cases j with
      | zero => simp [cacheAt]
      | succ m =>
        simp only [cacheAt, List.getElem?_cons_succ, ih]
        by_cases h : m = n <;> simp [h]

theorem lookupRegs_setSingleAt (S : LocState) (t : String) (i : Nat) (v : Value)
    (u : String) :
    lookupRegs (setSingleAt S t i v) u =
      if u = t then (lookupRegs S u).map (fun l => cacheAt l i v)
      else lookupRegs S u := by
  unfold lookupRegs setSingleAt
  exact lookupList_cacheFirst S.registrations t i v u

theorem getRegAt_setSingleAt (S : LocState) (t : String) (i : Nat) (v : Value)
    (u : String) (j : Nat) :
    getRegAt (setSingleAt S t i v) u j =
      if u = t ∧ j = i then
        (getRegAt S u j).map (fun r => { r with singleInstance := some v })
      else getRegAt S u j := by
  by_cases hu : u = t
  · subst hu
    cases hl : lookupRegs S u with
    | none =>
      rw [getRegAt_none (by rw [lookupRegs_setSingleAt, if_pos rfl, hl]; rfl) j,
        getRegAt_none hl j]
      simp
    | some l =>
      rw [getRegAt_some (by rw [lookupRegs_setSingleAt, if_pos rfl, hl]; rfl) j,
        getRegAt_some hl j, cacheAt_getElem]
      by_cases hj : j = i
      · subst hj
        rw [if_pos rfl, if_pos ⟨rfl, rfl⟩]
      · rw [if_neg hj, if_neg (fun hx => hj hx.2)]
  · have hlu : lookupRegs (setSingleAt S t i v) u = lookupRegs S u := by
      rw [lookupRegs_setSingleAt, if_neg hu]
    rw [if_neg (fun hx => hu hx.1)]
    unfold getRegAt
    rw [hlu]


theorem nextId_setSingleAt (S : LocState) (t : String) (i : Nat) (v : Value) :
    (setSingleAt S t i v).nextId = S.nextId := rfl

theorem getSingle_of_getRegAt {S : LocState} {t : String} {i : Nat} {r : Reg}
    (h : getRegAt S t i = some r) : getSingle S t i = r.singleInstance := by
  unfold getSingle
  rw [h]

theorem getSingle_setSingleAt_preserve {S : LocState} {t' : String} {i' : Nat}
    {w : Value} (t : String) (i : Nat) (v : Value)
    (h : getSingle S t' i' = some w) :
    getSingle (setSingleAt S t i v) t' i' = some w ∨ (t' = t ∧ i' = i) := by
  by_cases hc : t' = t ∧ i' = i
  · exact Or.inr hc
  · left
    unfold getSingle at h ⊢
    rw [getRegAt_setSingleAt, if_neg hc]
    exact h


/-! ## The resolution invariant

`StepOk S S'` records what one resolution step can do to the state: the
registry structure (keys, sequence lengths, every descriptor field but
`singleInstance`) is unchanged, the allocation counter never decreases, and
a committed singleton cache keeps its value. -/

def StepOk (S S' : LocState) : Prop :=
  eraseSingles S' = eraseSingles S ∧ S.nextId ≤ S'.nextId ∧
    ∀ t i v, getSingle S t i = some v → getSingle S' t i = some v

theorem StepOk.refl (S : LocState) : StepOk S S :=
  ⟨rfl, Nat.le_refl _, fun _ _ _ h => h⟩

theorem StepOk.trans {S1 S2 S3 : LocState} (h1 : StepOk S1 S2)
    (h2 : StepOk S2 S3) : StepOk S1 S3 :=
  ⟨h1.1 ▸ h2.1, Nat.le_trans h1.2.1 h2.2.1,
    fun t i v h => h2.2.2 t i v (h1.2.2 t i v h)⟩

/-- What every call of a well-behaved resolver guarantees: `StepOk` on the
state, and a `NotRegisteredError` only for a name whose sequence is absent
or empty in the entry state. -/
def ResOk (res : ResFn) : Prop :=
  ∀ S t, StepOk S (res S t).2 ∧
    ∀ u, (res S t).1 = Except.error (Err.notRegistered u) → noType S u


theorem getParametersWith_ok {res : ResFn} (hres : ResOk res) :
    ∀ (ns : List String) (S : LocState) (ps : List (String × Value)),
      StepOk S (getParametersWith res S ns ps).2 ∧
        ∀ u, (getParametersWith res S ns ps).1 = Except.error (Err.notRegistered u) →
          noType S u := by
  intro ns
  induction ns with
  | nil =>
    intro S ps
    exact ⟨StepOk.refl S, by intro u h; simp [getParametersWith] at h⟩
  | cons n ns ih =>
    intro S ps
    simp only [getParametersWith]
    cases hd : getDependencyName n with
    | none =>
      simp only
      cases hrec : getParametersWith res S ns ps with
      | mk e S'' =>
        cases e with
        | error e =>
          refine ⟨?_, ?_⟩
          · have := (ih S ps).1; rw [hrec] at this; exact this
          · intro u h
            simp only at h
            have := (ih S ps).2 u; rw [hrec] at this; exact this h
        | ok vs =>
          refine ⟨?_, ?_⟩
          · have := (ih S ps).1; rw [hrec] at this; exact this
          · intro u h; simp at h
    | some d =>
      simp only
      cases hr : res S d with
      | mk e S' =>
        have hres1 := (hres S d).1
        have hres2 := (hres S d).2
        rw [hr] at hres1 hres2
        cases e with
        | error e =>
          refine ⟨hres1, ?_⟩
          intro u h
          simp only at h
          cases h
          exact hres2 u rfl
        | ok v =>
          simp only
          cases hrec : getParametersWith res S' ns ps with
          | mk e' S'' =>
            have hih1 := (ih S' ps).1
            have hih2 := (ih S' ps).2
            rw [hrec] at hih1 hih2
            cases e' with
            | error e' =>
              refine ⟨StepOk.trans hres1 hih1, ?_⟩
              intro u h
              simp only at h
              cases h
              exact (noType_of_eraseEq hres1.1 u).mp (hih2 u rfl)
            | ok vs =>
              refine ⟨StepOk.trans hres1 hih1, ?_⟩
              intro u h; simp at h

theorem constructNew_ok {res : ResFn} (hres : ResOk res) (S : LocState) (r : Reg) :
    StepOk S (constructNew res S r).2 ∧
      ∀ u, (constructNew res S r).1 = Except.error (Err.notRegistered u) →
        noType S u := by
  have hgp := getParametersWith_ok hres r.parameterNames S r.parameters
  unfold constructNew
  cases hrec : getParametersWith res S r.parameterNames r.parameters with
  | mk e S' =>
    rw [hrec] at hgp
    cases e with
    | error e =>
      refine ⟨hgp.1, ?_⟩
      intro u h
      simp only at h
      cases h
      exact hgp.2 u rfl
    | ok args =>
      simp only
      refine ⟨StepOk.trans hgp.1 ⟨rfl, Nat.le_succ _, fun t i v h => h⟩, ?_⟩
      intro u h; simp at h

theorem createInstanceWith_ok {res : ResFn} (hres : ResOk res)
    (S : LocState) (r : Reg) (addr : Option (String × Nat))
    (haddr : ∀ t i, addr = some (t, i) → getRegAt S t i = some r) :
    StepOk S (createInstanceWith res S r addr).2 ∧
      ∀ u, (createInstanceWith res S r addr).1 = Except.error (Err.notRegistered u) →
        noType S u := by
  have hcn := constructNew_ok hres S r
  cases hb : r.isSingleton with
  | true =>
    cases hsi : r.singleInstance with
    | some v =>
      simp only [createInstanceWith, hb, hsi]
      exact ⟨StepOk.refl S, by intro u h; simp at h⟩
    | none =>
      simp only [createInstanceWith, hb, hsi]
      cases hrec : constructNew res S r with
      | mk e S' =>
        rw [hrec] at hcn
        cases e with
        | error e =>
          refine ⟨hcn.1, ?_⟩
          intro u h
          simp only at h
          cases h
          exact hcn.2 u rfl
        | ok inst =>
          simp only
          refine ⟨?_, by intro u h; simp at h⟩
          cases haddrc : addr with
          | none => exact hcn.1
          | some p =>
            obtain ⟨t, i⟩ := p
            have hreg : getRegAt S t i = some r := haddr t i haddrc
            have hnone : getSingle S t i = none := by
              rw [getSingle_of_getRegAt hreg, hsi]
            refine ⟨?_, ?_, ?_⟩
            · rw [eraseSingles_setSingleAt]
              exact hcn.1.1
            · rw [nextId_setSingleAt]
              exact hcn.1.2.1
            · intro t' i' v hv
              have hv' : getSingle S' t' i' = some v := hcn.1.2.2 t' i' v hv
              rcases getSingle_setSingleAt_preserve t i inst hv' with h | ⟨ht, hi⟩
              · exact h
              · subst ht; subst hi
                rw [hnone] at hv
                exact absurd hv (by simp)
  | false =>
    simp only [createInstanceWith, hb]
    exact hcn


theorem resolveFuel_ok : ∀ fuel : Nat, ResOk (resolveFuel fuel) := by
  intro fuel
  induction fuel with
  | zero =>
    intro S t
    exact ⟨StepOk.refl S, by intro u h; simp [resolveFuel] at h⟩
  | succ fuel ih =>
    intro S t
    cases hl : lookupRegs S t with
    | none =>
      simp only [resolveFuel, hl]
      refine ⟨StepOk.refl S, ?_⟩
      intro u h
      simp only [Except.error.injEq, Err.notRegistered.injEq] at h
      subst h
      exact Or.inl hl
    | some l =>
      cases l with
      | nil =>
        simp only [resolveFuel, hl]
        refine ⟨StepOk.refl S, ?_⟩
        intro u h
        simp only [Except.error.injEq, Err.notRegistered.injEq] at h
        subst h
        exact Or.inr hl
      | cons r rest =>
        simp only [resolveFuel, hl]
        refine createInstanceWith_ok ih S r (some (t, 0)) ?_
        intro t' i' h
        cases h
        rw [getRegAt_some hl 0]
        simp

/-! ## Registration and unregistration lemmas -/

theorem lookupList_unshiftFirst (L : List (String × List Reg)) (t : String)
    (r : Reg) (u : String) :
    lookupList (unshiftFirst L t r) u =
      if u = t then (lookupList L u).map (fun l => r :: l) else lookupList L u := by
  induction L with
  | nil => simp [lookupList, unshiftFirst]
  | cons kv rest ih =>
    obtain ⟨k, l⟩ := kv
    simp only [unshiftFirst]
    by_cases hkt : k = t
    · subst hkt
      rw [if_pos rfl]
      by_cases hku : k = u
      · subst hku
        simp [lookupList]
      · have hut : ¬ u = k := fun hx => hku hx.symm
        simp [lookupList, hku, hut]
    · rw [if_neg hkt]
      by_cases hku : k = u
      · subst hku
        simp [lookupList, hkt]
      · simp [lookupList, hku, ih]

theorem lookupList_append_missing {L : List (String × List Reg)} {t : String}
    (h : lookupList L t = none) (l0 : List Reg) :
    lookupList (L ++ [(t, l0)]) t = some l0 := by
  induction L with
  | nil => simp [lookupList]
  | cons kv rest ih =>
    obtain ⟨k, l⟩ := kv
    by_cases hk : k = t
    · subst hk; simp [lookupList] at h
    · simp only [lookupList, List.cons_append, if_neg hk] at h ⊢
      exact ih h

theorem lookupList_append_other {L : List (String × List Reg)} {t u : String}
    (hne : ¬ u = t) (l0 : List Reg) :
    lookupList (L ++ [(t, l0)]) u = lookupList L u := by
  induction L with
  | nil =>
    have : ¬ t = u := fun hx => hne hx.symm
    simp [lookupList, this]
  | cons kv rest ih =>
    obtain ⟨k, l⟩ := kv
    by_cases hk : k = u <;> simp [lookupList, List.cons_append, hk, ih]

theorem lookupList_deleteKey (L : List (String × List Reg)) (t u : String) :
    lookupList (deleteKey L t) u = if u = t then none else lookupList L u := by
  induction L with
  | nil => simp [deleteKey, lookupList]
  | cons kv rest ih =>
    obtain ⟨k, l⟩ := kv
    simp only [deleteKey]
    by_cases hkt : k = t
    · subst hkt
      rw [if_pos rfl, ih]
      by_cases hku : u = k
      · subst hku; simp
      · rw [if_neg hku, if_neg hku]
        have : ¬ k = u := fun hx => hku hx.symm
        simp [lookupList, this]
    · rw [if_neg hkt]
      by_cases hku : k = u
      · subst hku
        have : ¬ k = t := hkt
        simp [lookupList, fun hx : k = t => this hx]
      · simp [lookupList, hku, ih]

theorem nextId_registerCore (S : LocState) (t : String) (impl : Impl)
    (ps : List (String × Value)) (sing : Bool) :
    (registerCore S t impl ps sing).nextId = S.nextId := by
  unfold registerCore unshiftReg initializeRegistration
  cases lookupRegs S t <;> rfl

theorem lookupRegs_registerCore_self (S : LocState) (t : String) (impl : Impl)
    (ps : List (String × Value)) (sing : Bool) :
    lookupRegs (registerCore S t impl ps sing) t =
      some (⟨impl.implId, getParameterNames impl.source, ps, sing, none⟩ ::
        (lookupRegs S t).getD []) := by
  cases h : lookupRegs S t with
  | some l =>
    have hinit : initializeRegistration S t = S := by
      unfold initializeRegistration; rw [h]
    unfold registerCore unshiftReg lookupRegs
    rw [hinit]
    simp only
    rw [lookupList_unshiftFirst, if_pos rfl]
    unfold lookupRegs at h
    rw [h]
    rfl
  | none =>
    have hinit : initializeRegistration S t =
        { S with registrations := S.registrations ++ [(t, [])] } := by
      unfold initializeRegistration; rw [h]
    unfold registerCore unshiftReg lookupRegs
    rw [hinit]
    simp only
    rw [lookupList_unshiftFirst, if_pos rfl]
    unfold lookupRegs at h
    rw [lookupList_append_missing h]
    rfl

theorem lookupRegs_registerCore_other (S : LocState) (t : String) (impl : Impl)
    (ps : List (String × Value)) (sing : Bool) {u : String} (hne : ¬ u = t) :
    lookupRegs (registerCore S t impl ps sing) u = lookupRegs S u := by
  unfold registerCore unshiftReg lookupRegs
  simp only
  rw [lookupList_unshiftFirst, if_neg hne]
  unfold initializeRegistration
  cases h : lookupRegs S t with
  | some l => rfl
  | none =>
    simp only
    exact lookupList_append_other hne []

theorem lookupRegs_front_of_eraseEq {S S' : LocState}
    (h : eraseSingles S' = eraseSingles S) {t : String} {r : Reg} {rest : List Reg}
    (hl : lookupRegs S t = some (r :: rest)) :
    ∃ r' rest', lookupRegs S' t = some (r' :: rest') ∧ eraseReg r' = eraseReg r ∧
      rest'.map eraseReg = rest.map eraseReg := by
  have hm := lookup_map_of_eraseEq h t
  rw [hl] at hm
  cases h1 : lookupRegs S' t with
  | none => rw [h1] at hm; simp at hm
  | some l' =>
    rw [h1] at hm
    simp only [Option.map_some', Option.some.injEq] at hm
    cases l' with
    | nil => simp at hm
    | cons r' rest' =>
      simp only [List.map_cons, List.cons.injEq] at hm
      exact ⟨r', rest', rfl, hm.1, hm.2⟩

/-- A set cache on the front descriptor makes `resolve` return it
unchanged (the cache hit skips all parameter resolution). -/
theorem resolve_cached {fuel : Nat} {S : LocState} {t : String} {r : Reg}
    {rest : List Reg} {v : Value} (hl : lookupRegs S t = some (r :: rest))
    (hb : r.isSingleton = true) (hs : r.singleInstance = some v) :
    resolveFuel (fuel + 1) S t = (Except.ok v, S) := by
  simp [resolveFuel, hl, createInstanceWith, hb, hs]

/-! ## Concrete implementations and states for witnesses and counterexamples -/

/-- A zero-parameter constructor. -/
def implNoParams : Impl := ⟨1, "function () \x7b\x7d".data⟩

/-- A constructor declaring one dependency and one literal parameter. -/
def implDepACfg : Impl := ⟨2, "function ($a, cfg) \x7b\x7d".data⟩

/-- A constructor declaring two dependencies. -/
def implDepADepB : Impl := ⟨3, "function ($a, $b) \x7b\x7d".data⟩

/-- A constructor declaring one dependency. -/
def implDepA : Impl := ⟨4, "function ($a) \x7b\x7d".data⟩

/-- A constructor whose parameter name starts with two sigil characters:
`$$a` is a legal JavaScript identifier and the tokenizer accepts it. -/
def implDepDollarA : Impl := ⟨5, "function ($$a) \x7b\x7d".data⟩

/-- A second zero-parameter constructor. -/
def implB : Impl := ⟨7, "function () \x7b\x7d".data⟩

/-- A fresh locator: `new ServiceLocator()`. -/
def emptyLoc : LocState := ⟨[], 0⟩

/-- `register('a', implNoParams, \x7b\x7d, true)` on a fresh locator. -/
def stateSingletonA : LocState :=
  (registerOp emptyLoc (JSVal.str "a") (JSVal.fn implNoParams) [] true).2

/-- `stateSingletonA` then `register('t', implDepADepB)`: resolving `t`
resolves the singleton `a`, then fails on the unregistered `b`. -/
def stateC7 : LocState :=
  (registerOp stateSingletonA (JSVal.str "t") (JSVal.fn implDepADepB) [] false).2

/-- A locator with `$a` registered as a type name, to separate the two
readings of the dependency pattern on the parameter name `$$a`. -/
def stateC1 : LocState :=
  (registerOp emptyLoc (JSVal.str "$a") (JSVal.fn implNoParams) [] false).2

/-! ## C4 -/

/-- C4: `resolve(t)` fails with `NotRegisteredError` for `t` exactly when
`t`'s registration sequence is absent or empty (the two cases are treated
identically), and after `unregister(t)` a `resolve(t)` always fails with
`NotRegisteredError`, regardless of prior registrations. -/
theorem claim_C4_notRegistered (fuel : Nat) (S : LocState) (t : String) :
    ((resolveFuel (fuel + 1) S t).1 = Except.error (Err.notRegistered t) ↔
      (lookupRegs S t = none ∨ lookupRegs S t = some [])) ∧
    ∀ S0 : LocState,
      (resolveOp (fuel + 1) (unregisterOp S0 (JSVal.str t)).2 (JSVal.str t)).1 =
        Except.error (Err.notRegistered t) := by
  constructor
  · constructor
    · intro h
      cases hl : lookupRegs S t with
      | none => exact Or.inl rfl
      | some l =>
        cases l with
        | nil => exact Or.inr rfl
        | cons r rest =>
          simp only [resolveFuel, hl] at h
          have := (createInstanceWith_ok (resolveFuel_ok fuel) S r (some (t, 0))
            (by intro t' i' hx; cases hx; rw [getRegAt_some hl 0]; simp)).2 t h
          rcases this with hc | hc <;> rw [hl] at hc <;> simp at hc
    · intro h
      rcases h with h | h <;> simp [resolveFuel, h]
  · intro S0
    have hdel : lookupRegs (unregisterOp S0 (JSVal.str t)).2 t = none := by
      simp only [unregisterOp, lookupRegs]
      rw [lookupList_deleteKey, if_pos rfl]
    simp [resolveOp, resolveFuel, hdel]

/-! ## C7 -/

theorem createInstanceWith_nonsingleton {res : ResFn} {S : LocState} {r : Reg}
    {addr : Option (String × Nat)} (hb : r.isSingleton = false) :
    createInstanceWith res S r addr = constructNew res S r := by
  cases hs : r.singleInstance <;> simp [createInstanceWith, hb, hs]

theorem createInstanceWith_cached {res : ResFn} {S : LocState} {r : Reg}
    {addr : Option (String × Nat)} {v : Value} (hb : r.isSingleton = true)
    (hs : r.singleInstance = some v) :
    createInstanceWith res S r addr = (Except.ok v, S) := by
  simp [createInstanceWith, hb, hs]

theorem createInstanceWith_singleton_uncached {res : ResFn} {S : LocState}
    {r : Reg} {addr : Option (String × Nat)} (hb : r.isSingleton = true)
    (hs : r.singleInstance = none) :
    createInstanceWith res S r addr =
      match constructNew res S r with
      | (Except.error e, S') => (Except.error e, S')
      | (Except.ok inst, S') =>
        (Except.ok inst,
          match addr with
          | some (t, i) => setSingleAt S' t i inst
          | none => S') := by
  simp [createInstanceWith, hb, hs]


/-- A failing `constructNew` is exactly the failing parameter resolution:
the error branch propagates `_getParameters`' pair verbatim, so the
construction half contributes nothing (no instance, no `nextId` bump). -/
theorem constructNew_error {res : ResFn} {S : LocState} {r : Reg} {e : Err}
    {S' : LocState} (h : constructNew res S r = (Except.error e, S')) :
    getParametersWith res S r.parameterNames r.parameters = (Except.error e, S') := by
  unfold constructNew at h
  cases hg : getParametersWith res S r.parameterNames r.parameters with
  | mk v S2 =>
    rw [hg] at h
    cases v with
    | error e2 =>
      simp only [Prod.mk.injEq, Except.error.injEq] at h
      rw [← h.1, ← h.2]
    | ok args => simp at h

/-- A failing `_createInstance` is exactly the failing construction: the
error branch returns `constructNew`'s pair verbatim, so the
`singleInstance` write-back (present only in the successful singleton
branch) never runs on failure, whatever the registry address. -/
theorem createInstanceWith_error {res : ResFn} {S : LocState} {r : Reg}
    {addr : Option (String × Nat)} {e : Err} {S' : LocState}
    (h : createInstanceWith res S r addr = (Except.error e, S')) :
    constructNew res S r = (Except.error e, S') := by
  cases hs : r.isSingleton with
  | false =>
    rw [createInstanceWith_nonsingleton hs] at h
    exact h
  | true =>
    cases hn : r.singleInstance with
    | some v =>
      rw [createInstanceWith_cached hs hn] at h
      simp at h
    | none =>
      rw [createInstanceWith_singleton_uncached hs hn] at h
      cases hc : constructNew res S r with
      | mk v S2 =>
        rw [hc] at h
        cases v with
        | error e2 =>
          simp only [Prod.mk.injEq, Except.error.injEq] at h
          rw [← h.1, ← h.2]
        | ok inst => simp at h

/-- C7 counterexample: a failed `resolve` does not leave every descriptor
unchanged.  With a singleton `a` (uncached) and `t` depending on `$a` and
the unregistered `$b`, `resolve('t')` fails with `NotRegisteredError` for
`b`, yet `a`'s descriptor now carries a committed `singleInstance`. -/
theorem claim_C7_counterexample :
    (resolveFuel 5 stateC7 "t").1 = Except.error (Err.notRegistered "b") ∧
    (resolveFuel 5 stateC7 "t").2 ≠ stateC7 ∧
    getSingle stateC7 "a" 0 = none ∧
    getSingle (resolveFuel 5 stateC7 "t").2 "a" 0 = some (Value.obj 0 1 []) := by
  refine ⟨rfl, ?_, rfl, rfl⟩
  intro h
  have h1 : getSingle (resolveFuel 5 stateC7 "t").2 "a" 0 =
      some (Value.obj 0 1 []) := rfl
  rw [h] at h1
  have h2 : getSingle stateC7 "a" 0 = none := rfl
  rw [h2] at h1
  exact Option.noConfusion h1

/-- C7 (amended): validation in `register`, `registerInstance` and
`unregister` precedes any Registry Store mutation, so a failed call leaves
the registry unchanged; a failed `resolve` leaves the registry structure and
every previously committed `singleInstance` unchanged, and the failing call
itself writes no cache: unless it is the immediate lookup failure (state
returned untouched), its final state is exactly the state its dependency
resolution (`_getParameters` on the front descriptor) produced — the
`singleInstance` assignment of `_createInstance`, which sits only in the
successful-construction path, never runs on failure.  A failed `resolve`
may still newly commit the caches of singleton dependencies that were
constructed successfully before the failure. -/
theorem claim_C7_amended (fuel : Nat) (S : LocState) (type impl : JSVal)
    (inst : Value) (ps : List (String × Value)) (sing : Bool) (t : String) :
    (∀ e, (registerOp S type impl ps sing).1 = Except.error e →
      (registerOp S type impl ps sing).2 = S) ∧
    (∀ e, (registerInstanceOp S type inst).1 = Except.error e →
      (registerInstanceOp S type inst).2 = S) ∧
    (∀ e, (unregisterOp S type).1 = Except.error e →
      (unregisterOp S type).2 = S) ∧
    (∀ e, (resolveFuel fuel S t).1 = Except.error e →
      eraseSingles (resolveFuel fuel S t).2 = eraseSingles S ∧
      ∀ t' i v, getSingle S t' i = some v →
        getSingle (resolveFuel fuel S t).2 t' i = some v) ∧
    (∀ e S'', resolveFuel (fuel + 1) S t = (Except.error e, S'') →
      ((lookupRegs S t = none ∨ lookupRegs S t = some []) ∧ S'' = S) ∨
      ∃ r rest, lookupRegs S t = some (r :: rest) ∧
        getParametersWith (resolveFuel fuel) S r.parameterNames r.parameters =
          (Except.error e, S'')) := by
  refine ⟨?_, ?_, ?_, ?_, ?_⟩
  · intro e h
    cases impl with
    | fn F =>
      cases type with
      | str u => simp [registerOp] at h
      | num n => rfl
      | undef => rfl
      | nil => rfl
      | fn G => rfl
    | str u => rfl
    | num n => rfl
    | undef => rfl
    | nil => rfl
  · intro e h
    cases type with
    | str u => simp [registerInstanceOp] at h
    | fn G => rfl
    | num n => rfl
    | undef => rfl
    | nil => rfl
  · intro e h
    cases type with
    | str u => simp [unregisterOp] at h
    | fn G => rfl
    | num n => rfl
    | undef => rfl
    | nil => rfl
  · intro e h
    have := (resolveFuel_ok fuel S t).1
    exact ⟨this.1, this.2.2⟩
  · intro e S'' h
    cases hl : lookupRegs S t with
    | none =>
      left
      simp only [resolveFuel, hl, Prod.mk.injEq] at h
      exact ⟨Or.inl rfl, h.2.symm⟩
    | some l =>
      cases l with
      | nil =>
        left
        simp only [resolveFuel, hl, Prod.mk.injEq] at h
        exact ⟨Or.inr rfl, h.2.symm⟩
      | cons r rest =>
        right
        refine ⟨r, rest, rfl, ?_⟩
        simp only [resolveFuel, hl] at h
        exact constructNew_error (createInstanceWith_error h)

/-! ## C9 -/

/-- C9 counterexample: the empty string is not rejected.  `register` with
type name `""` succeeds (and mutates the registry), and `resolve("")`
proceeds past the type-name check to fail with `NotRegisteredError`, not
`InvalidTypeNameError`. -/
theorem claim_C9_counterexample :
    (registerOp emptyLoc (JSVal.str "") (JSVal.fn implNoParams) [] false).1 =
      Except.ok () ∧
    (registerOp emptyLoc (JSVal.str "") (JSVal.fn implNoParams) [] false).2 ≠
      emptyLoc ∧
    (resolveOp 2 emptyLoc (JSVal.str "")).1 = Except.error (Err.notRegistered "") := by
  refine ⟨rfl, ?_, rfl⟩
  intro h
  have h1 : lookupRegs (registerOp emptyLoc (JSVal.str "") (JSVal.fn implNoParams) [] false).2 "" =
      some [⟨1, [], [], false, none⟩] := rfl
  rw [h] at h1
  have h2 : lookupRegs emptyLoc "" = none := rfl
  rw [h2] at h1
  exact Option.noConfusion h1

/-- C9 (amended): every public operation taking a type name fails with
`InvalidTypeNameError` exactly on non-string type names (the empty string
is a string and is accepted), and `register` fails with
`InvalidImplementationError` on a non-function implementation. -/
theorem claim_C9_amended (fuel : Nat) (S : LocState) (v impl tname : JSVal)
    (ps : List (String × Value)) (sing : Bool) (inst : Value) (F : Impl) :
    ((∀ s, v ≠ JSVal.str s) →
      registerOp S v (JSVal.fn F) ps sing = (Except.error Err.invalidTypeName, S) ∧
      registerInstanceOp S v inst = (Except.error Err.invalidTypeName, S) ∧
      resolveOp fuel S v = (Except.error Err.invalidTypeName, S) ∧
      resolveAllOp fuel S v = (Except.error Err.invalidTypeName, S) ∧
      unregisterOp S v = (Except.error Err.invalidTypeName, S)) ∧
    ((∀ G, impl ≠ JSVal.fn G) →
      registerOp S tname impl ps sing = (Except.error Err.invalidImplementation, S)) := by
  constructor
  · intro hv
    cases v with
    | str s => exact absurd rfl (hv s)
    | fn G => exact ⟨rfl, rfl, rfl, rfl, rfl⟩
    | num n => exact ⟨rfl, rfl, rfl, rfl, rfl⟩
    | undef => exact ⟨rfl, rfl, rfl, rfl, rfl⟩
    | nil => exact ⟨rfl, rfl, rfl, rfl, rfl⟩
  · intro himpl
    cases impl with
    | fn G => exact absurd rfl (himpl G)
    | str s => rfl
    | num n => rfl
    | undef => rfl
    | nil => rfl

/-- C9 witness: the amended claim at concrete inputs — a numeric type name
is rejected by `resolve`, and a string implementation is rejected by
`register`. -/
theorem claim_C9_witness :
    resolveOp 3 emptyLoc (JSVal.num 5) = (Except.error Err.invalidTypeName, emptyLoc) ∧
    registerOp emptyLoc (JSVal.str "a") (JSVal.str "nope") [] false =
      (Except.error Err.invalidImplementation, emptyLoc) := by
  refine ⟨?_, ?_⟩
  · exact ((claim_C9_amended 3 emptyLoc (JSVal.num 5) (JSVal.str "nope") (JSVal.str "a")
      [] false Value.undef implNoParams).1 (by intro s h; cases h)).2.2.1
  · exact (claim_C9_amended 3 emptyLoc (JSVal.num 5) (JSVal.str "nope") (JSVal.str "a")
      [] false Value.undef implNoParams).2 (by intro G h; cases h)

/-! ## C10 -/

/-- C10 counterexample: `resolveInstance` does not leave the Registry Store
unchanged.  With an uncached singleton `a` registered, resolving an
unregistered implementation that depends on `$a` succeeds and commits `a`'s
`singleInstance`, mutating a registry descriptor. -/
theorem claim_C10_counterexample :
    (resolveInstanceFuel 5 stateSingletonA implDepA []).1 =
      Except.ok (Value.obj 1 4 [Value.obj 0 1 []]) ∧
    (resolveInstanceFuel 5 stateSingletonA implDepA []).2.registrations ≠
      stateSingletonA.registrations ∧
    getSingle (resolveInstanceFuel 5 stateSingletonA implDepA []).2 "a" 0 =
      some (Value.obj 0 1 []) := by
  refine ⟨rfl, ?_, rfl⟩
  intro h
  have h1 : getSingle (resolveInstanceFuel 5 stateSingletonA implDepA []).2 "a" 0 =
      some (Value.obj 0 1 []) := rfl
  have h2 : getSingle (resolveInstanceFuel 5 stateSingletonA implDepA []).2 "a" 0 =
      getSingle stateSingletonA "a" 0 := by
    unfold getSingle getRegAt lookupRegs
    rw [h]
  rw [h2] at h1
  have h3 : getSingle stateSingletonA "a" 0 = none := rfl
  rw [h3] at h1
  exact Option.noConfusion h1

/-- C10 (amended): `resolveInstance` is one-shot construction that stores no
descriptor: it extracts the parameter names fresh from the implementation
source, resolves them exactly as the construction algorithm's step 2 on a
fresh non-singleton descriptor, and never caches its own result; the
registry structure and all previously committed caches are untouched, but
recursive dependency resolution may commit singleton caches of registered
dependencies. -/
theorem claim_C10_amended (fuel : Nat) (S : LocState) (impl : Impl)
    (ps : List (String × Value)) :
    resolveInstanceFuel (fuel + 1) S impl ps =
      constructNew (resolveFuel fuel) S
        ⟨impl.implId, getParameterNames impl.source, ps, false, none⟩ ∧
    eraseSingles (resolveInstanceFuel (fuel + 1) S impl ps).2 = eraseSingles S ∧
    ∀ t i v, getSingle S t i = some v →
      getSingle (resolveInstanceFuel (fuel + 1) S impl ps).2 t i = some v := by
  have hcn := constructNew_ok (resolveFuel_ok fuel) S
    ⟨impl.implId, getParameterNames impl.source, ps, false, none⟩
  refine ⟨rfl, ?_, ?_⟩
  · exact hcn.1.1
  · exact hcn.1.2.2

/-! ## Branch lemmas for `_createInstance` -/

/-- A successful construction is a fresh instance of the descriptor's
implementation, applied to the resolved parameters, with the allocation
counter bumped. -/
theorem constructNew_ok_shape {res : ResFn} {S : LocState} {r : Reg}
    {v : Value} {S2 : LocState} (h : constructNew res S r = (Except.ok v, S2)) :
    ∃ args S', getParametersWith res S r.parameterNames r.parameters =
        (Except.ok args, S') ∧
      v = Value.obj S'.nextId r.ctorId args ∧
      S2 = { S' with nextId := S'.nextId + 1 } := by
  unfold constructNew at h
  cases hgp : getParametersWith res S r.parameterNames r.parameters with
  | mk e S' =>
    rw [hgp] at h
    cases e with
    | error e => simp at h
    | ok args =>
      simp only [Prod.mk.injEq, Except.ok.injEq] at h
      exact ⟨args, S', rfl, h.1.symm, h.2.symm⟩

theorem getRegAt_front {S : LocState} {t : String} {r : Reg} {rest : List Reg}
    (hl : lookupRegs S t = some (r :: rest)) : getRegAt S t 0 = some r := by
  rw [getRegAt_some hl 0]
  simp

theorem getRegAt_bump (S : LocState) (t : String) (i : Nat) :
    getRegAt { S with nextId := S.nextId + 1 } t i = getRegAt S t i := rfl

/-! ## C2 -/

/-- C2: registering `t` with `A` and then `B` (on a locator where `t` is
unregistered) places the new descriptor at the front each time, so the
sequence is `[descriptor-of-B, descriptor-of-A]`; any successful
`resolve(t)` constructs an instance of `B`; and any successful
`resolveAll(t)` returns exactly one instance per descriptor, in
most-recently-registered-first order `[instance-of-B, instance-of-A]`. -/
theorem claim_C2_shadowing (fuel : Nat) (S : LocState) (t : String) (A B : Impl)
    (psA psB : List (String × Value)) (hfresh : lookupRegs S t = none) :
    lookupRegs (registerCore (registerCore S t A psA false) t B psB false) t =
      some [⟨B.implId, getParameterNames B.source, psB, false, none⟩,
        ⟨A.implId, getParameterNames A.source, psA, false, none⟩] ∧
    (∀ v S2,
      resolveFuel fuel (registerCore (registerCore S t A psA false) t B psB false) t =
        (Except.ok v, S2) → ∃ n args, v = Value.obj n B.implId args) ∧
    (∀ vs S2,
      resolveAllFuel fuel (registerCore (registerCore S t A psA false) t B psB false) t =
        (Except.ok vs, S2) →
      ∃ n1 a1 n2 a2, vs = [Value.obj n1 B.implId a1, Value.obj n2 A.implId a2]) := by
  have h1 : lookupRegs (registerCore S t A psA false) t =
      some [⟨A.implId, getParameterNames A.source, psA, false, none⟩] := by
    rw [lookupRegs_registerCore_self, hfresh]
    rfl
  have h2 : lookupRegs (registerCore (registerCore S t A psA false) t B psB false) t =
      some [⟨B.implId, getParameterNames B.source, psB, false, none⟩,
        ⟨A.implId, getParameterNames A.source, psA, false, none⟩] := by
    rw [lookupRegs_registerCore_self, h1]
    rfl
  refine ⟨h2, ?_, ?_⟩
  · intro v S2 h
    cases fuel with
    | zero => simp [resolveFuel] at h
    | succ f =>
      simp only [resolveFuel, h2] at h
      rw [createInstanceWith_nonsingleton rfl] at h
      obtain ⟨args, S', _, hv, _⟩ := constructNew_ok_shape h
      exact ⟨S'.nextId, args, hv⟩
  · intro vs S2 h
    cases fuel with
    | zero => simp [resolveAllFuel] at h
    | succ f =>
      simp only [resolveAllFuel, h2, List.length_cons, List.length_nil] at h
      rw [resolveAllLoop] at h
      rw [getRegAt_front h2] at h
      simp only at h
      cases hc1 : createInstanceWith (resolveFuel f)
          (registerCore (registerCore S t A psA false) t B psB false)
          ⟨B.implId, getParameterNames B.source, psB, false, none⟩ (some (t, 0)) with
      | mk e1 S1 =>
        rw [hc1] at h
        rw [createInstanceWith_nonsingleton rfl] at hc1
        cases e1 with
        | error e => simp at h
        | ok v1 =>
          obtain ⟨args1, S1', hgp1, hv1, hS1⟩ := constructNew_ok_shape hc1
          simp only at h
          rw [resolveAllLoop] at h
          have hstep1 : StepOk
              (registerCore (registerCore S t A psA false) t B psB false) S1 := by
            have hco := (constructNew_ok (resolveFuel_ok f)
              (registerCore (registerCore S t A psA false) t B psB false)
              ⟨B.implId, getParameterNames B.source, psB, false, none⟩).1
            rw [hc1] at hco
            exact hco
          have hrA : getRegAt (registerCore (registerCore S t A psA false) t B psB false) t 1 =
              some ⟨A.implId, getParameterNames A.source, psA, false, none⟩ := by
            rw [getRegAt_some h2 1]
            simp
          obtain ⟨dA', hdA', herA⟩ := getRegAt_of_eraseEq hstep1.1 hrA
          obtain ⟨hctor, _, _, hsing⟩ := eraseReg_fields herA
          rw [hdA'] at h
          simp only at h
          cases hc2 : createInstanceWith (resolveFuel f) S1 dA' (some (t, 1)) with
          | mk e2 S2' =>
            rw [hc2] at h
            rw [createInstanceWith_nonsingleton hsing] at hc2
            cases e2 with
            | error e => simp at h
            | ok v2 =>
              obtain ⟨args2, S2'', _, hv2, _⟩ := constructNew_ok_shape hc2
              simp only [resolveAllLoop, Prod.mk.injEq, Except.ok.injEq] at h
              refine ⟨S1'.nextId, args1, S2''.nextId, args2, ?_⟩
              rw [← h.1, hv1, hv2, hctor]

/-! ## C3 -/

/-- C3: with a singleton front descriptor, a successful `resolve` leaves the
cache holding exactly the returned instance and every later `resolve`
returns that identical instance without touching the state (all parameter
resolution is skipped — even one unit of recursion fuel suffices); with a
non-singleton front descriptor two successful `resolve` calls return
distinct instances; and `resolve` never clears or changes a committed
`singleInstance` of any descriptor. -/
theorem claim_C3_singleton (fuel fuel2 : Nat) (S : LocState) (t : String) :
    (∀ r rest v S2, lookupRegs S t = some (r :: rest) → r.isSingleton = true →
      resolveFuel fuel S t = (Except.ok v, S2) →
      getSingle S2 t 0 = some v ∧
        ∀ f2, resolveFuel (f2 + 1) S2 t = (Except.ok v, S2)) ∧
    (∀ r rest v1 v2 S2 S3, lookupRegs S t = some (r :: rest) →
      r.isSingleton = false →
      resolveFuel fuel S t = (Except.ok v1, S2) →
      resolveFuel fuel2 S2 t = (Except.ok v2, S3) → v1 ≠ v2) ∧
    (∀ u i v, getSingle S u i = some v →
      getSingle (resolveFuel fuel S t).2 u i = some v) := by
  refine ⟨?_, ?_, ?_⟩
  · intro r rest v S2 hl hb hres
    cases fuel with
    | zero => simp [resolveFuel] at hres
    | succ f =>
      simp only [resolveFuel, hl] at hres
      cases hs : r.singleInstance with
      | some w =>
        rw [createInstanceWith_cached hb hs] at hres
        simp only [Prod.mk.injEq, Except.ok.injEq] at hres
        obtain ⟨hv, hS⟩ := hres
        subst hv
        subst hS
        constructor
        · rw [getSingle_of_getRegAt (getRegAt_front hl)]
          exact hs
        · intro f2
          exact resolve_cached hl hb hs
      | none =>
        rw [createInstanceWith_singleton_uncached hb hs] at hres
        cases hcn : constructNew (resolveFuel f) S r with
        | mk e S' =>
          rw [hcn] at hres
          cases e with
          | error e => simp at hres
          | ok inst =>
            simp only [Prod.mk.injEq, Except.ok.injEq] at hres
            obtain ⟨hv, hS⟩ := hres
            subst hv
            have hstep : StepOk S S' := by
              have := (constructNew_ok (resolveFuel_ok f) S r).1
              rw [hcn] at this
              exact this
            obtain ⟨r'', hr'', _⟩ := getRegAt_of_eraseEq hstep.1 (getRegAt_front hl)
            have hcache : getSingle S2 t 0 = some inst := by
              rw [← hS]
              unfold getSingle
              rw [getRegAt_setSingleAt, if_pos ⟨rfl, rfl⟩, hr'']
              rfl
            refine ⟨hcache, ?_⟩
            intro f2
            have herase2 : eraseSingles S2 = eraseSingles S := by
              rw [← hS, eraseSingles_setSingleAt]
              exact hstep.1
            obtain ⟨r2, rest2, hl2, her2, _⟩ := lookupRegs_front_of_eraseEq herase2 hl
            obtain ⟨_, _, _, hsing2⟩ := eraseReg_fields her2
            have hs2 : r2.singleInstance = some inst := by
              rw [← getSingle_of_getRegAt (getRegAt_front hl2)]
              exact hcache
            rw [resolve_cached hl2 (hsing2.trans hb) hs2]
  · intro r rest v1 v2 S2 S3 hl hb hres1 hres2
    cases fuel with
    | zero => simp [resolveFuel] at hres1
    | succ f =>
      simp only [resolveFuel, hl] at hres1
      rw [createInstanceWith_nonsingleton hb] at hres1
      obtain ⟨args1, S1', hgp1, hv1, hS1⟩ := constructNew_ok_shape hres1
      have herase : eraseSingles S2 = eraseSingles S := by
        rw [hS1]
        have := (getParametersWith_ok (resolveFuel_ok f) r.parameterNames S r.parameters).1
        rw [hgp1] at this
        exact this.1
      cases fuel2 with
      | zero => simp [resolveFuel] at hres2
      | succ g =>
        obtain ⟨r2, rest2, hl2, her2, _⟩ := lookupRegs_front_of_eraseEq herase hl
        obtain ⟨_, _, _, hsing2⟩ := eraseReg_fields her2
        simp only [resolveFuel, hl2] at hres2
        rw [createInstanceWith_nonsingleton (hsing2.trans hb)] at hres2
        obtain ⟨args2, S2', hgp2, hv2, hS2⟩ := constructNew_ok_shape hres2
        have hmono : S2.nextId ≤ S2'.nextId := by
          have := (getParametersWith_ok (resolveFuel_ok g) r2.parameterNames S2 r2.parameters).1
          rw [hgp2] at this
          exact this.2.1
        have hlt : S1'.nextId < S2'.nextId := by
          rw [hS1] at hmono
          simp only at hmono
          omega
        subst hv1
        subst hv2
        intro heq
        injection heq with ha hb hc
        omega
  · intro u i v hv
    exact (resolveFuel_ok fuel S t).1.2.2 u i v hv

/-- A non-singleton registration of `a`, for the distinctness half of C3. -/
def stateNonSingleA : LocState :=
  (registerOp emptyLoc (JSVal.str "a") (JSVal.fn implNoParams) [] false).2

/-- C2 witness: the shadowing claim applied to a concrete locator — after
registering `t` with implementations 1 then 7, resolve yields an instance of
implementation 7 and resolveAll yields instances of 7 then 1. -/
theorem claim_C2_witness :
    (∃ n args, Value.obj 0 7 [] = Value.obj n 7 args) ∧
    (∃ n1 a1 n2 a2, [Value.obj 0 7 [], Value.obj 1 1 []] =
      [Value.obj n1 7 a1, Value.obj n2 1 a2]) := by
  refine ⟨?_, ?_⟩
  · exact (claim_C2_shadowing 3 emptyLoc "t" implNoParams implB [] [] rfl).2.1 _ _ rfl
  · exact (claim_C2_shadowing 3 emptyLoc "t" implNoParams implB [] [] rfl).2.2 _ _ rfl

/-- C3 witness: the singleton claim at concrete states — the cache holds the
resolved instance and a one-fuel resolve returns it with the state
untouched; two non-singleton resolves differ; a committed cache survives an
unrelated resolve. -/
theorem claim_C3_witness :
    getSingle (resolveFuel 2 stateSingletonA "a").2 "a" 0 = some (Value.obj 0 1 []) ∧
    resolveFuel 1 (resolveFuel 2 stateSingletonA "a").2 "a" =
      (Except.ok (Value.obj 0 1 []), (resolveFuel 2 stateSingletonA "a").2) ∧
    Value.obj 0 1 [] ≠ Value.obj 1 1 [] ∧
    getSingle (resolveFuel 2 (resolveFuel 2 stateSingletonA "a").2 "x").2 "a" 0 =
      some (Value.obj 0 1 []) := by
  have h1 := (claim_C3_singleton 2 2 stateSingletonA "a").1
    ⟨1, [], [], true, none⟩ [] (Value.obj 0 1 [])
    (resolveFuel 2 stateSingletonA "a").2 rfl rfl rfl
  have h2 := (claim_C3_singleton 2 2 stateNonSingleA "a").2.1
    ⟨1, [], [], false, none⟩ [] (Value.obj 0 1 []) (Value.obj 1 1 [])
    (resolveFuel 2 stateNonSingleA "a").2
    (resolveFuel 2 (resolveFuel 2 stateNonSingleA "a").2 "a").2 rfl rfl rfl rfl
  have h3 := (claim_C3_singleton 2 2 (resolveFuel 2 stateSingletonA "a").2 "x").2.2
    "a" 0 (Value.obj 0 1 []) rfl
  exact ⟨h1.1, h1.2 0, h2, h3⟩

/-- C4 witness: the characterisation applied to concrete states — an
unregistered name fails with `NotRegisteredError`, and resolving after
`unregister` fails with `NotRegisteredError`. -/
theorem claim_C4_witness :
    (resolveFuel 3 emptyLoc "x").1 = Except.error (Err.notRegistered "x") ∧
    (resolveOp 3 (unregisterOp stateSingletonA (JSVal.str "a")).2 (JSVal.str "a")).1 =
      Except.error (Err.notRegistered "a") := by
  refine ⟨?_, ?_⟩
  · have h := ((claim_C4_notRegistered 2 emptyLoc "x").1).mpr (Or.inl rfl)
    exact h
  · exact (claim_C4_notRegistered 2 stateSingletonA "a").2 stateSingletonA

/-- C7 witness: the amended atomicity claim at concrete inputs — failed
validations leave the state unchanged, a failed resolve preserves the
registry structure, and a concretely failing resolve's state is exactly the
one its dependency resolution produced (no write of its own). -/
theorem claim_C7_witness :
    (registerOp emptyLoc (JSVal.num 3) (JSVal.fn implNoParams) [] false).2 = emptyLoc ∧
    (unregisterOp emptyLoc JSVal.undef).2 = emptyLoc ∧
    eraseSingles (resolveFuel 3 emptyLoc "x").2 = eraseSingles emptyLoc ∧
    (((lookupRegs stateC7 "t" = none ∨ lookupRegs stateC7 "t" = some []) ∧
        (resolveFuel 5 stateC7 "t").2 = stateC7) ∨
      ∃ r rest, lookupRegs stateC7 "t" = some (r :: rest) ∧
        getParametersWith (resolveFuel 4) stateC7 r.parameterNames r.parameters =
          (Except.error (Err.notRegistered "b"), (resolveFuel 5 stateC7 "t").2)) := by
  refine ⟨?_, ?_, ?_, ?_⟩
  · exact (claim_C7_amended 3 emptyLoc (JSVal.num 3) (JSVal.fn implNoParams)
      Value.undef [] false "x").1 Err.invalidTypeName rfl
  · exact (claim_C7_amended 3 emptyLoc JSVal.undef (JSVal.fn implNoParams)
      Value.undef [] false "x").2.2.1 Err.invalidTypeName rfl
  · exact ((claim_C7_amended 3 emptyLoc (JSVal.num 3) (JSVal.fn implNoParams)
      Value.undef [] false "x").2.2.2.1 (Err.notRegistered "x") rfl).1
  · exact (claim_C7_amended 4 stateC7 (JSVal.num 3) (JSVal.fn implNoParams)
      Value.undef [] false "t").2.2.2.2 (Err.notRegistered "b")
      (resolveFuel 5 stateC7 "t").2 rfl

/-- C10 witness: the amended frame claim applied where a cache is already
committed — `resolveInstance` leaves it intact. -/
theorem claim_C10_witness :
    getSingle (resolveInstanceFuel 3 (resolveFuel 2 stateSingletonA "a").2
      implNoParams []).2 "a" 0 = some (Value.obj 0 1 []) := by
  exact (claim_C10_amended 2 (resolveFuel 2 stateSingletonA "a").2 implNoParams []).2.2
    "a" 0 (Value.obj 0 1 []) rfl

/-! ## C1: the construction algorithm as the claim words it

The claim says a parameter name is a dependency when it "begins with the
dependency sigil `$` followed by one or more identifier characters", and
the spec defines identifier characters as word characters plus the sigil
itself (the tokenizer's `IDENTIFIER_TEST`).  The code's
`DEPENDENCY_REGEXP /^\$\w+/` requires a word character after the sigil, so
the two readings disagree exactly on names whose second character is `$` —
names the tokenizer does produce, e.g. from `function ($$a) ...`. -/

/-- The claim's dependency pattern, read with the spec's own definition of
identifier characters: the sigil followed by at least one identifier
character (word characters or the sigil). -/
def sigilPatternClaim (p : String) : Bool :=
  match p.data with
  | c :: c2 :: _ => if c = '$' then isIdentChar c2 else false
  | _ => false

/-- The dependency pattern the code implements: the sigil followed by at
least one word character. -/
def sigilPatternWord (p : String) : Bool :=
  match p.data with
  | c :: c2 :: _ => if c = '$' then isWordChar c2 else false
  | _ => false

/-- Stripping the sigil: `parameterName.substring(1)`. -/
def stripSigil (p : String) : String :=
  String.mk p.data.tail

/-- The claim's construction-algorithm step 2, literally: for each name in
declared order, if the name matches the dependency pattern, strip the sigil
and recursively resolve, propagating errors unchanged; otherwise look the
name up in the literal bag, an absent key yielding the explicit no-value
marker.  Parameterized by the pattern so that both the claim's reading and
the amended (word-character) reading can be stated. -/
def specGetParameters (pat : String → Bool) (res : ResFn) :
    LocState → List String → List (String × Value) → Except Err (List Value) × LocState
  | S, [], _ => (Except.ok [], S)
  | S, n :: ns, ps =>
    let step :=
      if pat n then res S (stripSigil n)
      else (Except.ok (lookupParam ps n), S)
    match step with
    | (Except.error e, S') => (Except.error e, S')
    | (Except.ok v, S') =>
      match specGetParameters pat res S' ns ps with
      | (Except.error e, S'') => (Except.error e, S'')
      | (Except.ok vs, S'') => (Except.ok (v :: vs), S'')

theorem getDependencyName_eq_word (p : String) :
    getDependencyName p =
      if sigilPatternWord p then some (stripSigil p) else none := by
  unfold getDependencyName sigilPatternWord stripSigil
  cases hd : p.data with
  | nil => rfl
  | cons c rest =>
    cases rest with
    | nil => simp
    | cons c2 rest2 =>
      by_cases hc : c = '$'
      · subst hc
        by_cases hw : isWordChar c2 <;> simp [hw]
      · simp [hc]

/-- The code's parameter resolution is exactly the claim's algorithm with
the word-character pattern. -/
theorem getParametersWith_eq_spec (res : ResFn) (ns : List String) :
    ∀ (S : LocState) (ps : List (String × Value)),
      getParametersWith res S ns ps = specGetParameters sigilPatternWord res S ns ps := by
  induction ns with
  | nil => intro S ps; rfl
  | cons n ns ih =>
    intro S ps
    have hstep : (match getDependencyName n with
        | some d => res S d
        | none => (Except.ok (lookupParam ps n), S)) =
        (if sigilPatternWord n then res S (stripSigil n)
          else (Except.ok (lookupParam ps n), S)) := by
      rw [getDependencyName_eq_word]
      cases hp : sigilPatternWord n <;> simp [hp]
    simp only [getParametersWith, specGetParameters, hstep]
    cases (if sigilPatternWord n then res S (stripSigil n)
        else (Except.ok (lookupParam ps n), S)) with
    | mk e S' =>
      cases e with
      | error e => rfl
      | ok v => simp only [ih]


/-- C1 counterexample: the parameter name `$$a` begins with the sigil
followed by an identifier character (the sigil is an identifier character),
so the claim's algorithm resolves it as dependency type `$a` — which is
registered here; the code's `DEPENDENCY_REGEXP` rejects it and injects the
literal bag value instead, so the claim's reading and the code disagree. -/
theorem claim_C1_counterexample :
    sigilPatternClaim "$$a" = true ∧
    getParametersWith (resolveFuel 2) stateC1 ["$$a"] [("$$a", Value.lit 7)] =
      (Except.ok [Value.lit 7], stateC1) ∧
    specGetParameters sigilPatternClaim (resolveFuel 2) stateC1 ["$$a"]
      [("$$a", Value.lit 7)] =
      (Except.ok [Value.obj 0 1 []], { stateC1 with nextId := 1 }) ∧
    getParametersWith (resolveFuel 2) stateC1 ["$$a"] [("$$a", Value.lit 7)] ≠
      specGetParameters sigilPatternClaim (resolveFuel 2) stateC1 ["$$a"]
        [("$$a", Value.lit 7)] := by
  refine ⟨rfl, rfl, rfl, ?_⟩
  intro h
  have h1 : getParametersWith (resolveFuel 2) stateC1 ["$$a"] [("$$a", Value.lit 7)] =
      (Except.ok [Value.lit 7], stateC1) := rfl
  rw [h] at h1
  have h2 : specGetParameters sigilPatternClaim (resolveFuel 2) stateC1 ["$$a"]
      [("$$a", Value.lit 7)] =
      (Except.ok [Value.obj 0 1 []], { stateC1 with nextId := 1 }) := rfl
  rw [h2] at h1
  simp only [Prod.mk.injEq, Except.ok.injEq, List.cons.injEq] at h1
  exact Value.noConfusion h1.1.1

/-- C1 (amended): the construction algorithm resolves arguments in declared
order — a name beginning with the sigil followed by one or more word
characters (not: identifier characters — a second sigil does not match) is
resolved by recursively resolving the sigil-stripped name with any error
propagated unchanged; any other name is looked up in the literal bag, an
absent key yielding the explicit no-value marker; and the implementation is
constructed with exactly that argument list in declared order (a singleton
descriptor additionally commits the cache). -/
theorem claim_C1_amended (fuel : Nat) (S : LocState) (ns : List String)
    (ps : List (String × Value)) (t : String) (r : Reg) (rest : List Reg) :
    getParametersWith (resolveFuel fuel) S ns ps =
      specGetParameters sigilPatternWord (resolveFuel fuel) S ns ps ∧
    (lookupRegs S t = some (r :: rest) → r.isSingleton = false →
      resolveFuel (fuel + 1) S t =
        match specGetParameters sigilPatternWord (resolveFuel fuel) S
            r.parameterNames r.parameters with
        | (Except.error e, S') => (Except.error e, S')
        | (Except.ok args, S') =>
          (Except.ok (Value.obj S'.nextId r.ctorId args),
            { S' with nextId := S'.nextId + 1 })) ∧
    (lookupRegs S t = some (r :: rest) → r.isSingleton = true →
      r.singleInstance = none →
      resolveFuel (fuel + 1) S t =
        match specGetParameters sigilPatternWord (resolveFuel fuel) S
            r.parameterNames r.parameters with
        | (Except.error e, S') => (Except.error e, S')
        | (Except.ok args, S') =>
          (Except.ok (Value.obj S'.nextId r.ctorId args),
            setSingleAt { S' with nextId := S'.nextId + 1 } t 0
              (Value.obj S'.nextId r.ctorId args))) := by
  refine ⟨getParametersWith_eq_spec (resolveFuel fuel) ns S ps, ?_, ?_⟩
  · intro hl hb
    simp only [resolveFuel, hl]
    rw [createInstanceWith_nonsingleton hb]
    unfold constructNew
    rw [getParametersWith_eq_spec]
  · intro hl hb hs
    simp only [resolveFuel, hl]
    rw [createInstanceWith_singleton_uncached hb hs]
    unfold constructNew
    rw [getParametersWith_eq_spec]
    cases specGetParameters sigilPatternWord (resolveFuel fuel) S
        r.parameterNames r.parameters with
    | mk e S' => cases e <;> rfl

/-- C1 witness: the amended construction algorithm at a concrete locator —
argument resolution agrees with the spec-side algorithm on a dependency
plus a literal name, and a concrete resolve is exactly the spec-side
construction. -/
theorem claim_C1_witness :
    getParametersWith (resolveFuel 2) stateSingletonA ["$a", "cfg"]
      [("cfg", Value.lit 9)] =
      specGetParameters sigilPatternWord (resolveFuel 2) stateSingletonA
        ["$a", "cfg"] [("cfg", Value.lit 9)] ∧
    resolveFuel 3 stateNonSingleA "a" =
      match specGetParameters sigilPatternWord (resolveFuel 2) stateNonSingleA
          (getParameterNames implNoParams.source) [] with
      | (Except.error e, S') => (Except.error e, S')
      | (Except.ok args, S') =>
        (Except.ok (Value.obj S'.nextId 1 args),
          { S' with nextId := S'.nextId + 1 }) := by
  refine ⟨?_, ?_⟩
  · exact (claim_C1_amended 2 stateSingletonA ["$a", "cfg"] [("cfg", Value.lit 9)]
      "x" ⟨0, [], [], false, none⟩ []).1
  · exact (claim_C1_amended 2 stateNonSingleA (getParameterNames implNoParams.source)
      [] "a" ⟨1, getParameterNames implNoParams.source, [], false, none⟩ []).2.1 rfl rfl

/-! ## C8 -/

/-- A list whose head (if any) is not whitespace. -/
def headNotWs : List Char → Prop
  | [] => True
  | c :: _ => isJsWhitespace c = false

/-- A list whose head (if any) is not an identifier character. -/
def headNotIdent : List Char → Prop
  | [] => True
  | c :: _ => isIdentChar c = false

theorem wsRunLen_append {pre l : List Char}
    (hpre : ∀ c ∈ pre, isJsWhitespace c = true) (hl : headNotWs l) :
    wsRunLen (pre ++ l) = pre.length := by
  induction pre with
  | nil =>
    cases l with
    | nil => rfl
    | cons c l' =>
      unfold headNotWs at hl
      simp [wsRunLen, hl]
  | cons c pre ih =>
    have hc : isJsWhitespace c = true := hpre c (by simp)
    have hrest : ∀ d ∈ pre, isJsWhitespace d = true := fun d hd => hpre d (by simp [hd])
    simp [wsRunLen, hc, ih hrest]

theorem identRunLen_append {pre l : List Char}
    (hpre : ∀ c ∈ pre, isIdentChar c = true) (hl : headNotIdent l) :
    identRunLen (pre ++ l) = pre.length := by
  induction pre with
  | nil =>
    cases l with
    | nil => rfl
    | cons c l' =>
      unfold headNotIdent at hl
      simp [identRunLen, hl]
  | cons c pre ih =>
    have hc : isIdentChar c = true := hpre c (by simp)
    have hrest : ∀ d ∈ pre, isIdentChar d = true := fun d hd => hpre d (by simp [hd])
    simp [identRunLen, hc, ih hrest]

theorem skipWhitespace_of_drop {src pre l : List Char} {i : Nat}
    (hd : src.drop i = pre ++ l) (hpre : ∀ c ∈ pre, isJsWhitespace c = true)
    (hl : headNotWs l) : skipWhitespace src i = i + pre.length := by
  unfold skipWhitespace
  rw [hd, wsRunLen_append hpre hl]

theorem identifierRun_of_drop {src pre l : List Char} {i : Nat}
    (hd : src.drop i = pre ++ l) (hpre : ∀ c ∈ pre, isIdentChar c = true)
    (hl : headNotIdent l) : identifierRun src i = i + pre.length := by
  unfold identifierRun
  rw [hd, identRunLen_append hpre hl]

theorem charAt_of_drop {src : List Char} {i : Nat} {c : Char} {l : List Char}
    (h : src.drop i = c :: l) : charAt src i = some c := by
  unfold charAt
  rw [h]
  rfl

theorem charAt_of_drop_nil {src : List Char} {i : Nat} (h : src.drop i = []) :
    charAt src i = none := by
  unfold charAt
  rw [h]
  rfl

theorem drop_add_of_drop {src l : List Char} {i k : Nat} (h : src.drop i = l) :
    src.drop (i + k) = l.drop k := by
  rw [← List.drop_drop, h]

theorem not_ws_of_ident {c : Char} (h : isIdentChar c = true) :
    isJsWhitespace c = false := by
  cases hb : isJsWhitespace c with
  | false => rfl
  | true =>
    exfalso
    have hmem : ((((c = ' ' ∨ c = '\t') ∨ c = '\n') ∨ c = '\x0d') ∨
        c = Char.ofNat 11) ∨ c = Char.ofNat 12 := by
      simpa [isJsWhitespace] using hb
    rcases hmem with ⟨⟨⟨⟨h1 | h1⟩ | h1⟩ | h1⟩ | h1⟩ | h1 <;> subst h1 <;>
      exact absurd h (by decide)

theorem wsRunLen_eq_zero {l : List Char} (h : headNotWs l) : wsRunLen l = 0 := by
  cases l with
  | nil => rfl
  | cons c l' =>
    unfold headNotWs at h
    simp [wsRunLen, h]

theorem skipWhitespace_none {src l : List Char} {i : Nat} (hd : src.drop i = l)
    (h : headNotWs l) : skipWhitespace src i = i := by
  unfold skipWhitespace
  rw [hd, wsRunLen_eq_zero h, Nat.add_zero]

/-- One unfolding of the extractor loop, stated for rewriting. -/
theorem scanLoop_succ (fuel : Nat) (tk : Tokenizer) (started : Bool) (acc : List String) :
    scanLoop (fuel + 1) tk started acc =
      (let p := next tk
      let started' := if p.1.state = TState.PARENTHESES_OPEN then true else started
      let acc' :=
        if started' then
          if p.1.state = TState.IDENTIFIER then
            substringOf tk.source p.1.start p.1.tokEnd :: acc
          else acc
        else acc
      if p.1.state = TState.END ∨ p.1.state = TState.ILLEGAL then (acc'.reverse, true)
      else scanLoop fuel p.2 started' acc') := rfl

/-! ## C5 -/

/-- C5: scanning the source `"function (a, b) \x7b\x7d"` yields the
parameter sequence `["a", "b"]`; scanning
`"function named($dep, literal) \x7b\x7d"` yields `["$dep", "literal"]`,
the declaration name being excluded because identifiers before the
parameter list opens are not parameters; and every zero-parameter
constructor — the keyword, optional whitespace, an optional name, a
parameter list that opens and (after optional whitespace) immediately
closes, then any tail — yields the empty sequence. -/
theorem claim_C5_extractor :
    getParameterNames "function (a, b) \x7b\x7d".data = ["a", "b"] ∧
    getParameterNames "function named($dep, literal) \x7b\x7d".data =
      ["$dep", "literal"] ∧
    ∀ sep name ws rest : List Char,
      (∀ c ∈ sep, isJsWhitespace c = true) →
      (∀ c ∈ name, isIdentChar c = true) →
      (∀ c ∈ ws, isJsWhitespace c = true) →
      getParameterNames
        ("function".data ++ (sep ++ (name ++ ('(' :: (ws ++ ')' :: rest))))) = [] := by
  refine ⟨rfl, rfl, ?_⟩
  intro sep name ws rest hsep hname hws
  set src : List Char :=
    "function".data ++ (sep ++ (name ++ ('(' :: (ws ++ ')' :: rest)))) with hsrc
  have hkwlen : ("function".data : List Char).length = 8 := rfl
  have hnw1 : headNotWs (name ++ ('(' :: (ws ++ ')' :: rest))) := by
    cases name with
    | nil => exact (by decide : isJsWhitespace '(' = false)
    | cons c name' => exact not_ws_of_ident (hname c (by simp))
  have h8 : src.drop 8 = sep ++ (name ++ ('(' :: (ws ++ ')' :: rest))) := by
    rw [hsrc]
    exact List.drop_left' hkwlen
  have hsksep : skipWhitespace src 8 = 8 + sep.length :=
    skipWhitespace_of_drop h8 hsep hnw1
  have hdropname : src.drop (8 + sep.length) = name ++ ('(' :: (ws ++ ')' :: rest)) := by
    have h := drop_add_of_drop (k := sep.length) h8
    rw [List.drop_left] at h
    exact h
  have hdropparen : src.drop (8 + sep.length + name.length) =
      '(' :: (ws ++ ')' :: rest) := by
    have h := drop_add_of_drop (k := name.length) hdropname
    rw [List.drop_left] at h
    exact h
  have hdropws : src.drop (8 + sep.length + name.length + 1) = ws ++ ')' :: rest := by
    have h := drop_add_of_drop (k := 1) hdropparen
    simpa using h
  have hdropclose : src.drop (8 + sep.length + name.length + 1 + ws.length) =
      ')' :: rest := by
    have h := drop_add_of_drop (k := ws.length) hdropws
    rw [List.drop_left] at h
    exact h
  have hskws : skipWhitespace src (8 + sep.length + name.length + 1) =
      8 + sep.length + name.length + 1 + ws.length :=
    skipWhitespace_of_drop hdropws hws (by exact (by decide : isJsWhitespace ')' = false))
  have hsk0 : skipWhitespace src 0 = 0 := by
    refine skipWhitespace_none (l := src) (List.drop_zero src) ?_
    rw [hsrc]
    exact (by decide : isJsWhitespace 'f' = false)
  have hkey : matchesKeyword src 0 = true := by
    have htake : (src.drop 0).take 8 = "function".data := by
      rw [List.drop_zero, hsrc]
      exact List.take_left' hkwlen
    unfold matchesKeyword
    rw [htake]
    simp
  have hlen : src.length = 8 + sep.length + name.length + 1 + ws.length + 1 + rest.length := by
    rw [hsrc]
    simp [List.length_append]
    omega
  have hPO : ∀ e : Nat,
      parenthesesOpenState ⟨src, 8 + sep.length + name.length, e, TState.PARENTHESES_OPEN⟩ =
      ⟨src, 8 + sep.length + name.length + 1 + ws.length,
        8 + sep.length + name.length + 1, TState.PARENTHESES_CLOSE⟩ := by
    intro e
    unfold parenthesesOpenState
    simp only
    rw [hskws, charAt_of_drop hdropclose]
    rfl
  have hPC : ∀ e j : Nat,
      parenthesesCloseState ⟨src, j, e, TState.PARENTHESES_CLOSE⟩ =
      ⟨src, j + 1, j + 1, TState.END⟩ := by
    intro e j
    unfold parenthesesCloseState
    rfl
  -- the last two loop steps are shared: PARENTHESES_CLOSE then the END token
  have hnextPC : ∀ e j : Nat,
      next ⟨src, j, e, TState.PARENTHESES_CLOSE⟩ =
      (⟨TState.PARENTHESES_CLOSE, j, j + 1⟩, ⟨src, j + 1, j + 1, TState.END⟩) := by
    intro e j
    simp only [next, hPC]
  have hnextEND : ∀ j : Nat,
      next ⟨src, j, j, TState.END⟩ = (⟨TState.END, j, j + 1⟩, ⟨src, j, j, TState.END⟩) := by
    intro j
    simp only [next]
  have htail : ∀ fuel j e started,
      scanLoop (fuel + 1 + 1) ⟨src, j, e, TState.PARENTHESES_CLOSE⟩ started [] = ([], true) := by
    intro fuel j e started
    rw [scanLoop_succ]
    simp only [hnextPC]
    simp only [scanLoop_succ, hnextEND]
    simp
  cases name with
  | nil =>
    simp only [List.length_nil, Nat.add_zero] at hdropname hdropparen hdropws hdropclose hskws hlen hPO
    have hFS : ∀ e : Nat, functionState ⟨src, 0, e, TState.FUNCTION⟩ =
        ⟨src, 8 + sep.length, 8, TState.PARENTHESES_OPEN⟩ := by
      intro e
      unfold functionState
      simp only [Nat.zero_add]
      rw [hsksep, charAt_of_drop (by simpa using hdropname)]
      rfl
    have hnext0 : next ⟨src, 0, 0, TState.NO⟩ =
        (⟨TState.FUNCTION, 0, 8⟩, ⟨src, 8 + sep.length, 8, TState.PARENTHESES_OPEN⟩) := by
      simp only [next, hsk0, hkey, if_true, hFS]
    have hnext1 : next ⟨src, 8 + sep.length, 8, TState.PARENTHESES_OPEN⟩ =
        (⟨TState.PARENTHESES_OPEN, 8 + sep.length, 8 + sep.length + 1⟩,
          ⟨src, 8 + sep.length + 1 + ws.length,
            8 + sep.length + 1, TState.PARENTHESES_CLOSE⟩) := by
      simp only [next, hPO]
    have hm : ∃ m, src.length + 2 = m + 1 + 1 + 1 + 1 := ⟨src.length - 2, by omega⟩
    obtain ⟨m, hm⟩ := hm
    unfold getParameterNames getParameterNamesScan initTokenizer
    rw [hm, scanLoop_succ, hnext0]
    show (scanLoop (m + 1 + 1 + 1)
      ⟨src, 8 + sep.length, 8, TState.PARENTHESES_OPEN⟩ false []).1 = []
    rw [scanLoop_succ, hnext1]
    show (scanLoop (m + 1 + 1)
      ⟨src, 8 + sep.length + 1 + ws.length, 8 + sep.length + 1,
        TState.PARENTHESES_CLOSE⟩ true []).1 = []
    rw [htail]
  | cons c0 name' =>
    have hc0 : isIdentChar c0 = true := hname c0 (by simp)
    have hc0ne : ¬ c0 = '(' := by
      intro h
      rw [h] at hc0
      exact absurd hc0 (by decide)
    have hdropname' : src.drop (8 + sep.length) =
        c0 :: (name' ++ ('(' :: (ws ++ ')' :: rest))) := by simpa using hdropname
    have hFS : ∀ e : Nat, functionState ⟨src, 0, e, TState.FUNCTION⟩ =
        ⟨src, 8 + sep.length, 8, TState.IDENTIFIER⟩ := by
      intro e
      unfold functionState
      simp only [Nat.zero_add]
      rw [hsksep, charAt_of_drop hdropname']
      simp [functionClassify, hc0ne, hc0]
    have hIR : identifierRun src (8 + sep.length) =
        8 + sep.length + (c0 :: name').length :=
      identifierRun_of_drop hdropname hname
        (by exact (by decide : isIdentChar '(' = false))
    have hIS : ∀ e : Nat, identifierState ⟨src, 8 + sep.length, e, TState.IDENTIFIER⟩ =
        ⟨src, 8 + sep.length + (c0 :: name').length,
          8 + sep.length + (c0 :: name').length, TState.PARENTHESES_OPEN⟩ := by
      intro e
      unfold identifierState
      simp only
      rw [hIR, skipWhitespace_none hdropparen
        (by exact (by decide : isJsWhitespace '(' = false)),
        charAt_of_drop hdropparen]
      rfl
    have hnext0 : next ⟨src, 0, 0, TState.NO⟩ =
        (⟨TState.FUNCTION, 0, 8⟩, ⟨src, 8 + sep.length, 8, TState.IDENTIFIER⟩) := by
      simp only [next, hsk0, hkey, if_true, hFS]
    have hnext1 : next ⟨src, 8 + sep.length, 8, TState.IDENTIFIER⟩ =
        (⟨TState.IDENTIFIER, 8 + sep.length, 8 + sep.length + (c0 :: name').length⟩,
          ⟨src, 8 + sep.length + (c0 :: name').length,
            8 + sep.length + (c0 :: name').length, TState.PARENTHESES_OPEN⟩) := by
      simp only [next, hIS]
    have hnext2 : next ⟨src, 8 + sep.length + (c0 :: name').length,
          8 + sep.length + (c0 :: name').length, TState.PARENTHESES_OPEN⟩ =
        (⟨TState.PARENTHESES_OPEN, 8 + sep.length + (c0 :: name').length,
            8 + sep.length + (c0 :: name').length + 1⟩,
          ⟨src, 8 + sep.length + (c0 :: name').length + 1 + ws.length,
            8 + sep.length + (c0 :: name').length + 1, TState.PARENTHESES_CLOSE⟩) := by
      simp only [next, hPO]
    have hm : ∃ m, src.length + 2 = m + 1 + 1 + 1 + 1 + 1 := ⟨src.length - 3, by omega⟩
    obtain ⟨m, hm⟩ := hm
    unfold getParameterNames getParameterNamesScan initTokenizer
    rw [hm, scanLoop_succ, hnext0]
    show (scanLoop (m + 1 + 1 + 1 + 1)
      ⟨src, 8 + sep.length, 8, TState.IDENTIFIER⟩ false []).1 = []
    rw [scanLoop_succ, hnext1]
    show (scanLoop (m + 1 + 1 + 1)
      ⟨src, 8 + sep.length + (c0 :: name').length,
        8 + sep.length + (c0 :: name').length, TState.PARENTHESES_OPEN⟩ false []).1 = []
    rw [scanLoop_succ, hnext2]
    show (scanLoop (m + 1 + 1)
      ⟨src, 8 + sep.length + (c0 :: name').length + 1 + ws.length,
        8 + sep.length + (c0 :: name').length + 1,
        TState.PARENTHESES_CLOSE⟩ true []).1 = []
    rw [htail]

/-- C5 witness: the zero-parameter family applied at two concrete sources,
one with a declaration name and one with whitespace inside the empty
parameter list. -/
theorem claim_C5_witness :
    getParameterNames "function f2()after".data = [] ∧
    getParameterNames "function ( )x".data = [] := by
  constructor
  · exact claim_C5_extractor.2.2 [' '] ['f', '2'] [] "after".data
      (by intro c hc; simp at hc; subst hc; rfl)
      (by intro c hc; simp at hc; rcases hc with h | h <;> subst h <;> rfl)
      (by intro c hc; simp at hc)
  · exact claim_C5_extractor.2.2 [' '] [] [' '] ['x']
      (by intro c hc; simp at hc; subst hc; rfl)
      (by intro c hc; simp at hc)
      (by intro c hc; simp at hc; subst hc; rfl)

/-! ## C6: totality of the scan -/

/-- The invariant the extractor's loop maintains between `next()` calls:
each pending machine state guarantees the character that justified entering
it is still at the current index; `FUNCTION` never persists across a call,
and the `NO` state only occurs at the very start of a scan. -/
def TkInvAux : TState → List Char → Nat → Prop
  | TState.IDENTIFIER, src, i => ∃ c, charAt src i = some c ∧ isIdentChar c = true
  | TState.PARENTHESES_OPEN, src, i => charAt src i = some '('
  | TState.PARENTHESES_CLOSE, src, i => charAt src i = some ')'
  | TState.COMMA, src, i => charAt src i = some ','
  | TState.FUNCTION, _, _ => False
  | TState.NO, _, i => i = 0
  | _, _, _ => True

/-- The invariant on a tokenizer. -/
def TkInv (tk : Tokenizer) : Prop :=
  TkInvAux tk.currentState tk.source tk.currentIndex

/-- The loop variant: terminal machine states need one final call; a
pending state can keep scanning for at most the remaining source length. -/
def tkMeasureAux : TState → List Char → Nat → Nat
  | TState.END, _, _ => 1
  | TState.ILLEGAL, _, _ => 1
  | _, src, i => src.length + 2 - i

/-- The variant on a tokenizer. -/
def tkMeasure (tk : Tokenizer) : Nat :=
  tkMeasureAux tk.currentState tk.source tk.currentIndex

theorem skipWhitespace_ge (src : List Char) (i : Nat) : i ≤ skipWhitespace src i :=
  Nat.le_add_right _ _

theorem drop_cons_of_charAt {src : List Char} {i : Nat} {c : Char}
    (h : charAt src i = some c) : src.drop i = c :: src.drop (i + 1) := by
  cases hd : src.drop i with
  | nil => rw [charAt, hd] at h; exact absurd h (by simp)
  | cons d l =>
    rw [charAt, hd] at h
    simp only [List.head?_cons, Option.some.injEq] at h
    subst h
    rw [← List.tail_drop src i, hd]
    rfl

theorem identifierRun_ge_succ {src : List Char} {i : Nat} {c : Char}
    (h : charAt src i = some c) (hc : isIdentChar c = true) :
    i + 1 ≤ identifierRun src i := by
  unfold identifierRun
  rw [drop_cons_of_charAt h]
  simp [identRunLen, hc]

theorem tkMeasure_pos {tk : Tokenizer} (h : TkInv tk) : 1 ≤ tkMeasure tk := by
  obtain ⟨src, i, e, st⟩ := tk
  cases st with
  | ILLEGAL => exact Nat.le_refl 1
  | END => exact Nat.le_refl 1
  | FUNCTION => exact absurd (h : False) (fun hf => hf)
  | NO =>
    show 1 ≤ src.length + 2 - i
    have h0 : i = 0 := h
    omega
  | IDENTIFIER =>
    obtain ⟨c, hc, _⟩ := h
    have hlt : i < src.length := charAt_lt_length hc
    show 1 ≤ src.length + 2 - i
    omega
  | PARENTHESES_OPEN =>
    have hlt : i < src.length := charAt_lt_length (h : charAt src i = some '(')
    show 1 ≤ src.length + 2 - i
    omega
  | PARENTHESES_CLOSE =>
    have hlt : i < src.length := charAt_lt_length (h : charAt src i = some ')')
    show 1 ≤ src.length + 2 - i
    omega
  | COMMA =>
    have hlt : i < src.length := charAt_lt_length (h : charAt src i = some ',')
    show 1 ≤ src.length + 2 - i
    omega

/-- One step of the scan from an invariant-respecting tokenizer: either the
returned token is terminal (the loop stops), or the invariant holds again
and the variant strictly decreases. -/
theorem next_step {tk : Tokenizer} (hinv : TkInv tk) :
    ((next tk).1.state = TState.END ∨ (next tk).1.state = TState.ILLEGAL) ∨
    (TkInv (next tk).2 ∧ tkMeasure (next tk).2 < tkMeasure tk) := by
  obtain ⟨src, i, e, st⟩ := tk
  cases st with
  | ILLEGAL => exact Or.inl (Or.inr rfl)
  | END => exact Or.inl (Or.inl rfl)
  | FUNCTION => exact absurd (hinv : False) (fun hf => hf)
  | PARENTHESES_OPEN =>
    right
    have hc0 : charAt src i = some '(' := hinv
    have hilt : i < src.length := charAt_lt_length hc0
    have hjge : i + 1 ≤ skipWhitespace src (i + 1) := skipWhitespace_ge src (i + 1)
    show TkInvAux (parenthesesOpenClassify (charAt src (skipWhitespace src (i + 1))))
        src (skipWhitespace src (i + 1)) ∧
      tkMeasureAux (parenthesesOpenClassify (charAt src (skipWhitespace src (i + 1))))
        src (skipWhitespace src (i + 1)) < src.length + 2 - i
    cases hc : charAt src (skipWhitespace src (i + 1)) with
    | none =>
      exact ⟨trivial, by show 1 < src.length + 2 - i; omega⟩
    | some c =>
      simp only [parenthesesOpenClassify]
      have hjlt : skipWhitespace src (i + 1) < src.length := charAt_lt_length hc
      by_cases hid : isIdentChar c = true
      · rw [if_pos hid]
        exact ⟨⟨c, hc, hid⟩, by show src.length + 2 - _ < src.length + 2 - i; omega⟩
      · rw [if_neg hid]
        by_cases hcp : c = ')'
        · rw [if_pos hcp]
          subst hcp
          exact ⟨hc, by show src.length + 2 - _ < src.length + 2 - i; omega⟩
        · rw [if_neg hcp]
          exact ⟨trivial, by show 1 < src.length + 2 - i; omega⟩
  | PARENTHESES_CLOSE =>
    right
    have hc0 : charAt src i = some ')' := hinv
    have hilt : i < src.length := charAt_lt_length hc0
    exact ⟨trivial, by show 1 < src.length + 2 - i; omega⟩
  | COMMA =>
    right
    have hc0 : charAt src i = some ',' := hinv
    have hilt : i < src.length := charAt_lt_length hc0
    have hjge : i + 1 ≤ skipWhitespace src (i + 1) := skipWhitespace_ge src (i + 1)
    show TkInvAux (commaClassify (charAt src (skipWhitespace src (i + 1))))
        src (skipWhitespace src (i + 1)) ∧
      tkMeasureAux (commaClassify (charAt src (skipWhitespace src (i + 1))))
        src (skipWhitespace src (i + 1)) < src.length + 2 - i
    cases hc : charAt src (skipWhitespace src (i + 1)) with
    | none =>
      exact ⟨trivial, by show 1 < src.length + 2 - i; omega⟩
    | some c =>
      simp only [commaClassify]
      have hjlt : skipWhitespace src (i + 1) < src.length := charAt_lt_length hc
      by_cases hid : isIdentChar c = true
      · rw [if_pos hid]
        exact ⟨⟨c, hc, hid⟩, by show src.length + 2 - _ < src.length + 2 - i; omega⟩
      · rw [if_neg hid]
        exact ⟨trivial, by show 1 < src.length + 2 - i; omega⟩
  | IDENTIFIER =>
    right
    obtain ⟨c0, hc0, hid0⟩ := hinv
    have hilt : i < src.length := charAt_lt_length hc0
    have hrge : i + 1 ≤ identifierRun src i := identifierRun_ge_succ hc0 hid0
    have hkge : identifierRun src i ≤ skipWhitespace src (identifierRun src i) :=
      skipWhitespace_ge src _
    show TkInvAux
        (identifierClassify (charAt src (skipWhitespace src (identifierRun src i))))
        src (skipWhitespace src (identifierRun src i)) ∧
      tkMeasureAux
        (identifierClassify (charAt src (skipWhitespace src (identifierRun src i))))
        src (skipWhitespace src (identifierRun src i)) < src.length + 2 - i
    cases hc : charAt src (skipWhitespace src (identifierRun src i)) with
    | none =>
      exact ⟨trivial, by show 1 < src.length + 2 - i; omega⟩
    | some c =>
      simp only [identifierClassify]
      have hjlt : skipWhitespace src (identifierRun src i) < src.length :=
        charAt_lt_length hc
      by_cases hop : c = '('
      · rw [if_pos hop]
        subst hop
        exact ⟨hc, by show src.length + 2 - _ < src.length + 2 - i; omega⟩
      · rw [if_neg hop]
        by_cases hcl : c = ')'
        · rw [if_pos hcl]
          subst hcl
          exact ⟨hc, by show src.length + 2 - _ < src.length + 2 - i; omega⟩
        · rw [if_neg hcl]
          by_cases hcm : c = ','
          · rw [if_pos hcm]
            subst hcm
            exact ⟨hc, by show src.length + 2 - _ < src.length + 2 - i; omega⟩
          · rw [if_neg hcm]
            exact ⟨trivial, by show 1 < src.length + 2 - i; omega⟩
  | NO =>
    have hi0 : i = 0 := hinv
    subst hi0
    by_cases hkw : matchesKeyword src (skipWhitespace src 0) = true
    · right
      show TkInv (next ⟨src, 0, e, TState.NO⟩).2 ∧
        tkMeasure (next ⟨src, 0, e, TState.NO⟩).2 < tkMeasure ⟨src, 0, e, TState.NO⟩
      unfold next
      simp only [hkw, if_true]
      have hjge : skipWhitespace src 0 + 8 ≤
          skipWhitespace src (skipWhitespace src 0 + 8) := skipWhitespace_ge src _
      show TkInvAux
          (functionClassify (charAt src (skipWhitespace src (skipWhitespace src 0 + 8))))
          src (skipWhitespace src (skipWhitespace src 0 + 8)) ∧
        tkMeasureAux
          (functionClassify (charAt src (skipWhitespace src (skipWhitespace src 0 + 8))))
          src (skipWhitespace src (skipWhitespace src 0 + 8)) < src.length + 2 - 0
      cases hc : charAt src (skipWhitespace src (skipWhitespace src 0 + 8)) with
      | none =>
        exact ⟨trivial, by show 1 < src.length + 2 - 0; omega⟩
      | some c =>
        simp only [functionClassify]
        have hjlt : skipWhitespace src (skipWhitespace src 0 + 8) < src.length :=
          charAt_lt_length hc
        by_cases hop : c = '('
        · rw [if_pos hop]
          subst hop
          exact ⟨hc, by show src.length + 2 - _ < src.length + 2 - 0; omega⟩
        · rw [if_neg hop]
          by_cases hid : isIdentChar c = true
          · rw [if_pos hid]
            exact ⟨⟨c, hc, hid⟩,
              by show src.length + 2 - _ < src.length + 2 - 0; omega⟩
          · rw [if_neg hid]
            exact ⟨trivial, by show 1 < src.length + 2 - 0; omega⟩
    · left
      right
      show (next ⟨src, 0, e, TState.NO⟩).1.state = TState.ILLEGAL
      unfold next
      simp only [hkw]
      rw [if_neg (by simp [hkw])]

/-- Sufficient fuel makes the extractor loop reach a terminal token. -/
theorem scanLoop_terminates :
    ∀ (fuel : Nat) (tk : Tokenizer) (started : Bool) (acc : List String),
      TkInv tk → tkMeasure tk ≤ fuel → (scanLoop fuel tk started acc).2 = true := by
  intro fuel
  induction fuel with
  | zero =>
    intro tk started acc hinv hm
    have := tkMeasure_pos hinv
    omega
  | succ f ih =>
    intro tk started acc hinv hm
    rw [scanLoop_succ]
    cases hn : next tk with
    | mk tok tk' =>
      simp only [hn]
      by_cases hterm : tok.state = TState.END ∨ tok.state = TState.ILLEGAL
      · rw [if_pos hterm]
      · rw [if_neg hterm]
        rcases next_step hinv with hterm' | ⟨hinv', hdec⟩
        · simp only [hn] at hterm'
          exact absurd hterm' hterm
        · simp only [hn] at hinv' hdec
          have := tkMeasure_pos hinv
          exact ih tk' _ _ hinv' (by omega)

/-- C6: the scanner's step function is total (it returns a token for every
tokenizer, never raising) and for every source text the extractor's scan
reaches an `END` or `ILLEGAL` token within the fuel `getParameterNames`
supplies — the loop genuinely terminates and returns the partial parameter
sequence gathered so far (possibly empty) instead of an error. -/
theorem claim_C6_total (src : List Char) :
    (getParameterNamesScan src).2 = true ∧
    getParameterNames src = (getParameterNamesScan src).1 := by
  constructor
  · apply scanLoop_terminates
    · show (0 : Nat) = 0
      rfl
    · show src.length + 2 - 0 ≤ src.length + 2
      omega
  · rfl

end CatberryLocator
